import Mathlib

/-!
# DeskPilot transactional file-mutation engine: a shallow embedding

This file embeds the core of the DeskPilot file-organization platform
(safe filesystem operations, organizer, deduper, transaction ledger and
rollback engine) as executable Lean definitions, and proves the spec
claims about them.

Modelling conventions:
* A filesystem path is its list of components (`path.join dir name` is
  `dir ++ [name]`, `path.dirname` is `dropLast`, `path.basename` is the
  last component).
* The filesystem is a flat snapshot: an association list from paths to
  file metadata plus a set (list) of directory paths.  `fs.existsSync`
  is true when the path is a file or a directory; the `fileExists`
  utility of the source is exactly `fs.existsSync`.
* `Date.now()` timestamps are supplied as explicit parameters (`times`
  maps the action loop index to the clock value, `now` is the completion
  clock); randomly generated identifiers (`generateId`,
  `generateShortId`) are supplied as parameters or left as `""` for
  per-action ids, which no logic reads back.
* The directory walk (`getAllFiles`) and content hashing
  (`calculateFileHash`) are read-only producers; operations take their
  output (a listing of paths, or of paths with stat/hash metadata) as an
  argument.  Hash equality of byte streams is represented by equality of
  the recorded hash strings.
* JavaScript `Array.prototype.sort` with a total-preorder comparator is
  stable; it is embedded as a stable insertion sort.
* Fields that JavaScript leaves as the empty string `''` and tests for
  falsiness (a delete action's `to` path) are `Option` values.
* The mongoose store is an insertion-ordered list of transactions;
  `findOne` returns the first match, `save` on a new document appends,
  `save` on a loaded document updates in place.
-/

set_option linter.unusedVariables false

namespace DeskPilot

/-- A filesystem path, as its list of components. -/
abbrev Path := List String

/-- `path.join dir name`: append one component. -/
def pathJoin (dir : Path) (name : String) : Path := dir ++ [name]

/-- `path.dirname`: drop the last component. -/
def dirname (p : Path) : Path := p.dropLast

/-- `path.basename`: the last component (empty for the root). -/
def basename (p : Path) : String := p.getLastD ""

/-- Stat metadata of one file: size, birthtime, mtime and its content
hash (the digest `calculateFileHash` would produce for its bytes). -/
structure FileMeta where
  size : Nat
  createdAt : Nat
  modifiedAt : Nat
  hash : String
deriving DecidableEq, Repr

/-- A filesystem snapshot: files (path to metadata, first binding wins)
and existing directories. -/
structure Fs where
  files : List (Path × FileMeta)
  dirs : List Path
deriving DecidableEq, Repr

/-- Content lookup: the metadata stored at a file path. -/
def fsLookup (fs : Fs) (p : Path) : Option FileMeta :=
  (fs.files.find? (fun e => e.fst = p)).map Prod.snd

/-- Remove the binding of a file path. -/
def fsRemove (fs : Fs) (p : Path) : Fs :=
  { fs with files := fs.files.filter (fun e => ¬ e.fst = p) }

/-- Bind a file path to metadata (shadowing any previous binding). -/
def fsAdd (fs : Fs) (p : Path) (m : FileMeta) : Fs :=
  { fs with files := (p, m) :: fs.files }

/-- `fs.existsSync`: the path is a file or a directory.  The source's
`fileExists` utility delegates to `fs.existsSync`, so it is this. -/
def fileExists (fs : Fs) (p : Path) : Bool :=
  (fsLookup fs p).isSome || fs.dirs.contains p

/-- `ensureDirectory`: `mkdirSync` when absent (always succeeds in the
model; the error path needs an I/O failure the snapshot cannot show). -/
def ensureDirectory (fs : Fs) (dirPath : Path) : Fs :=
  if fs.dirs.contains dirPath then fs else { fs with dirs := dirPath :: fs.dirs }

/-- Index of the last `.` at positive position, as `path.extname` finds
it in a basename (a leading dot starts a hidden file, not an extension). -/
def lastDotIdx (cs : List Char) : Option Nat :=
  (List.range cs.length).foldl
    (fun acc i => if cs.get? i = some '.' ∧ 0 < i then some i else acc) none

/-- `path.extname` on a basename: from the last interior dot onward. -/
def extname (name : String) : String :=
  match lastDotIdx name.toList with
  | some i => String.mk (name.toList.drop i)
  | none => ""

/-- The basename with `path.extname` stripped (`path.basename(p, ext)`). -/
def basenameNoExt (name : String) : String :=
  match lastDotIdx name.toList with
  | some i => String.mk (name.toList.take i)
  | none => name

/-- The candidate tried at counter value `c` inside `getUniqueFilename`:
`dir/baseName_c ++ ext`. -/
def uniqueCandidate (dir : Path) (baseName ext : String) (c : Nat) : Path :=
  pathJoin dir (baseName ++ "_" ++ toString c ++ ext)

/-- The `do … while (fs.existsSync(newPath) && counter < 1000)` loop of
`getUniqueFilename`: the candidate for `counter` is built, the counter
is incremented, and the loop continues while the candidate exists and
the incremented counter is below 1000.  The candidate reached when the
bound runs out is returned even when it still exists. -/
def uniqueLoop (ex : Path → Bool) (dir : Path) (baseName ext : String) (counter : Nat) : Path :=
  let newPath := uniqueCandidate dir baseName ext counter
  if h : ex newPath = true ∧ counter + 1 < 1000 then
    uniqueLoop ex dir baseName ext (counter + 1)
  else newPath
termination_by 1000 - counter
decreasing_by omega

/-- `getUniqueFilename(targetPath)`: the ambient `fs.existsSync` is the
predicate `ex`.  Returns the target itself when free, otherwise probes
`base_1`, `base_2`, … as in the source. -/
def getUniqueFilename (ex : Path → Bool) (targetPath : Path) : Path :=
  if ¬ ex targetPath = true then targetPath
  else
    uniqueLoop ex (dirname targetPath)
      (basenameNoExt (basename targetPath)) (extname (basename targetPath)) 1

/-- Result record of `safeMove` (`from`/`to`/`success`/`error`). -/
structure MoveResult where
  success : Bool
  from_ : Path
  to_ : Path
  error : Option String
deriving DecidableEq, Repr

/-- `safeMove(from, to, handleCollision)`.  `renameSync` places the
source content at the final destination, replacing anything there
(POSIX rename overwrites), and unbinds the source. -/
def safeMove (fs : Fs) (from_ to_ : Path) (handleCollision : Bool) : Fs × MoveResult :=
  if ¬ fileExists fs from_ = true then
    (fs, ⟨false, from_, to_, some "Source file does not exist"⟩)
  else
    let fs1 := ensureDirectory fs (dirname to_)
    let finalTo :=
      if handleCollision ∧ fileExists fs1 to_ = true then getUniqueFilename (fileExists fs1) to_
      else to_
    match fsLookup fs1 from_ with
    | some m =>
      (fsAdd (fsRemove (fsRemove fs1 from_) finalTo) finalTo m, ⟨true, from_, finalTo, none⟩)
    | none =>
      (fs1, ⟨false, from_, to_, some "File not found"⟩)

/-- Result record of `safeDelete`. -/
structure DeleteResult where
  success : Bool
  path : Path
  movedToTrash : Bool
  trashPath : Option Path
  error : Option String
deriving DecidableEq, Repr

/-- `safeDelete(filePath, moveToTrash)`: soft delete moves into the
trash directory under a `timestamp_name` filename through `safeMove`
with collision handling; hard delete unlinks. -/
def safeDelete (fs : Fs) (trashDir : Path) (timestamp : Nat) (filePath : Path)
    (moveToTrash : Bool) : Fs × DeleteResult :=
  if ¬ fileExists fs filePath = true then
    (fs, ⟨false, filePath, false, none, some "File does not exist"⟩)
  else if moveToTrash then
    let fs1 := ensureDirectory fs trashDir
    let fileName := basename filePath
    let trashFilePath := pathJoin trashDir (toString timestamp ++ "_" ++ fileName)
    let r := safeMove fs1 filePath trashFilePath true
    if r.2.success then
      (r.1, ⟨true, filePath, true, some r.2.to_, none⟩)
    else
      (r.1, ⟨false, filePath, false, none, r.2.error⟩)
  else
    (fsRemove fs filePath, ⟨true, filePath, false, none, none⟩)


/-- The closed set of category labels (`FileCategory`). -/
inductive FileCategory where
  | Documents | Images | Videos | Audio | Installers | Archives | Code | Others
deriving DecidableEq, Repr

/-- The folder/display name of a category (its string value in the
source). -/
def categoryName : FileCategory → String
  | .Documents => "Documents"
  | .Images => "Images"
  | .Videos => "Videos"
  | .Audio => "Audio"
  | .Installers => "Installers"
  | .Archives => "Archives"
  | .Code => "Code"
  | .Others => "Others"

/-- `getAllCategories()`: the fixed ordered list of categories. -/
def getAllCategories : List FileCategory :=
  [.Documents, .Images, .Videos, .Audio, .Installers, .Archives, .Code, .Others]

/-- The `EXTENSION_CATEGORIES` table: lowercased extension (with dot)
to category; anything else falls back to `Others` via `categorizeFile`. -/
def extensionCategory : String → Option FileCategory
  | ".pdf" => some .Documents
  | ".doc" => some .Documents
  | ".docx" => some .Documents
  | ".xls" => some .Documents
  | ".xlsx" => some .Documents
  | ".ppt" => some .Documents
  | ".pptx" => some .Documents
  | ".txt" => some .Documents
  | ".rtf" => some .Documents
  | ".odt" => some .Documents
  | ".ods" => some .Documents
  | ".odp" => some .Documents
  | ".csv" => some .Documents
  | ".md" => some .Documents
  | ".epub" => some .Documents
  | ".mobi" => some .Documents
  | ".jpg" => some .Images
  | ".jpeg" => some .Images
  | ".png" => some .Images
  | ".gif" => some .Images
  | ".bmp" => some .Images
  | ".svg" => some .Images
  | ".webp" => some .Images
  | ".ico" => some .Images
  | ".tiff" => some .Images
  | ".tif" => some .Images
  | ".psd" => some .Images
  | ".ai" => some .Images
  | ".eps" => some .Images
  | ".raw" => some .Images
  | ".cr2" => some .Images
  | ".nef" => some .Images
  | ".heic" => some .Images
  | ".heif" => some .Images
  | ".mp4" => some .Videos
  | ".avi" => some .Videos
  | ".mkv" => some .Videos
  | ".mov" => some .Videos
  | ".wmv" => some .Videos
  | ".flv" => some .Videos
  | ".webm" => some .Videos
  | ".m4v" => some .Videos
  | ".mpeg" => some .Videos
  | ".mpg" => some .Videos
  | ".3gp" => some .Videos
  | ".vob" => some .Videos
  | ".mp3" => some .Audio
  | ".wav" => some .Audio
  | ".flac" => some .Audio
  | ".aac" => some .Audio
  | ".ogg" => some .Audio
  | ".wma" => some .Audio
  | ".m4a" => some .Audio
  | ".aiff" => some .Audio
  | ".ape" => some .Audio
  | ".alac" => some .Audio
  | ".mid" => some .Audio
  | ".midi" => some .Audio
  | ".exe" => some .Installers
  | ".msi" => some .Installers
  | ".dmg" => some .Installers
  | ".pkg" => some .Installers
  | ".deb" => some .Installers
  | ".rpm" => some .Installers
  | ".appimage" => some .Installers
  | ".snap" => some .Installers
  | ".flatpak" => some .Installers
  | ".apk" => some .Installers
  | ".ipa" => some .Installers
  | ".zip" => some .Archives
  | ".rar" => some .Archives
  | ".7z" => some .Archives
  | ".tar" => some .Archives
  | ".gz" => some .Archives
  | ".bz2" => some .Archives
  | ".xz" => some .Archives
  | ".iso" => some .Archives
  | ".img" => some .Archives
  | ".cab" => some .Archives
  | ".arj" => some .Archives
  | ".lzh" => some .Archives
  | ".js" => some .Code
  | ".ts" => some .Code
  | ".jsx" => some .Code
  | ".tsx" => some .Code
  | ".py" => some .Code
  | ".java" => some .Code
  | ".c" => some .Code
  | ".cpp" => some .Code
  | ".cc" => some .Code
  | ".h" => some .Code
  | ".hpp" => some .Code
  | ".cs" => some .Code
  | ".go" => some .Code
  | ".rs" => some .Code
  | ".rb" => some .Code
  | ".php" => some .Code
  | ".swift" => some .Code
  | ".kt" => some .Code
  | ".scala" => some .Code
  | ".r" => some .Code
  | ".m" => some .Code
  | ".mm" => some .Code
  | ".sql" => some .Code
  | ".sh" => some .Code
  | ".bash" => some .Code
  | ".ps1" => some .Code
  | ".bat" => some .Code
  | ".cmd" => some .Code
  | ".html" => some .Code
  | ".htm" => some .Code
  | ".css" => some .Code
  | ".scss" => some .Code
  | ".sass" => some .Code
  | ".less" => some .Code
  | ".json" => some .Code
  | ".xml" => some .Code
  | ".yaml" => some .Code
  | ".yml" => some .Code
  | ".toml" => some .Code
  | ".ini" => some .Code
  | ".cfg" => some .Code
  | ".conf" => some .Code
  | ".vue" => some .Code
  | ".svelte" => some .Code
  | ".astro" => some .Code
  | _ => none

/-- ASCII lowercase of one character (`String.prototype.toLowerCase`
restricted to ASCII, which covers every key of the extension table). -/
def charToLower (c : Char) : Char :=
  if 65 ≤ c.toNat ∧ c.toNat ≤ 90 then Char.ofNat (c.toNat + 32) else c

/-- ASCII `toLowerCase` on a string. -/
def stringToLower (s : String) : String := String.mk (s.toList.map charToLower)

/-- `categorizeFile(filePath)`: lowercased `path.extname`, table lookup,
`Others` fallback.  `path.extname` of a full path only inspects its
basename. -/
def categorizeFile (p : Path) : FileCategory :=
  ((extensionCategory (stringToLower (extname (basename p)))).getD .Others)

/-- Action kinds of a `TransactionAction`. -/
inductive ActionType where
  | move | delete | restore
deriving DecidableEq, Repr

/-- Per-action statuses (the schema also allows `rolled_back`, which no
code path assigns to an action). -/
inductive ActionStatus where
  | pending | completed | failed | rolled_back
deriving DecidableEq, Repr

/-- One atomic recorded mutation (`ITransactionAction`).  `to_ = none`
is the empty-string destination of a permanent delete. -/
structure TransactionAction where
  actionId : String
  type : ActionType
  from_ : Path
  to_ : Option Path
  status : ActionStatus
  error : Option String
  fileHash : Option String
  fileSize : Option Nat
deriving DecidableEq, Repr

/-- Aggregate counters of a transaction (`ITransactionSummary`). -/
structure TransactionSummary where
  movedCount : Nat
  deletedCount : Nat
  restoredCount : Nat
  failedCount : Nat
  savedBytes : Int
  totalProcessed : Nat
deriving DecidableEq, Repr

/-- Transaction kinds. -/
inductive TransactionType where
  | organize | dedupe | rollback
deriving DecidableEq, Repr

/-- Transaction lifecycle statuses. -/
inductive TxStatus where
  | pending | completed | partially_completed | failed | rolled_back
deriving DecidableEq, Repr

/-- The keep-strategies of the deduper. -/
inductive DedupeStrategy where
  | keepLatest | keepOldest | keepLargest
deriving DecidableEq, Repr

/-- A persisted transaction (`ITransaction`). -/
structure Transaction where
  transactionId : String
  type : TransactionType
  status : TxStatus
  actions : List TransactionAction
  summary : TransactionSummary
  targetPath : Path
  dryRun : Bool
  strategy : Option DedupeStrategy
  completedAt : Option Nat
  rolledBackAt : Option Nat
  rollbackTransactionId : Option String
deriving DecidableEq, Repr

/-- The durable store of transactions, in insertion order. -/
abbrev Db := List Transaction

/-- `Transaction.findOne(transactionId)`: first match. -/
def dbFind (db : Db) (transactionId : String) : Option Transaction :=
  db.find? (fun t => t.transactionId = transactionId)

/-- `save()` on a new document: append. -/
def dbInsert (db : Db) (t : Transaction) : Db := db ++ [t]

/-- `save()` on a loaded document: replace every document carrying its
identifier. -/
def dbUpdate (db : Db) (t : Transaction) : Db :=
  db.map (fun u => if u.transactionId = t.transactionId then t else u)

/-- `RollbackService.getRollbackableTransactions()`: status completed or
partially completed, and not a dry run.  (The `createdAt` descending
sort only affects presentation order and is not modelled.) -/
def getRollbackableTransactions (db : Db) : List Transaction :=
  db.filter (fun t =>
    (t.status = TxStatus.completed ∨ t.status = TxStatus.partially_completed) ∧ t.dryRun = false)


/-- One planned move of the organizer (`OrganizePlan`). -/
structure OrganizePlan where
  from_ : Path
  to_ : Path
  category : FileCategory
  fileName : String
  size : Nat
deriving DecidableEq, Repr

/-- Organizer options. -/
structure OrganizeOptions where
  dryRun : Bool := false
  recursive : Bool := false
deriving DecidableEq, Repr

/-- Summary block of an `OrganizeResult`. -/
structure OrganizeSummary where
  totalFiles : Nat
  movedCount : Nat
  failedCount : Nat
  byCategory : List (String × Nat)
deriving DecidableEq, Repr

/-- Return value of `OrganizerService.organize`. -/
structure OrganizeResult where
  transactionId : String
  targetPath : Path
  dryRun : Bool
  plan : List OrganizePlan
  summary : OrganizeSummary
deriving DecidableEq, Repr

/-- `OrganizerService.getOrganizableFiles`: the walk filter drops every
file whose parent directory basename is one of the category names; in
non-recursive mode only files directly inside the target remain.
`allFiles` is the raw enumeration `getAllFiles` would produce. -/
def getOrganizableFiles (dirPath : Path) (recursive : Bool) (allFiles : List Path) : List Path :=
  let entries := allFiles.filter
    (fun filePath => ¬ (getAllCategories.map categoryName).contains (basename (dirname filePath)))
  if ¬ recursive then entries.filter (fun f => dirname f = dirPath) else entries

/-- The planning loop of `organize`: skip unstattable files, classify,
skip files already at `<target>/<Category>/<name>`, otherwise emit a
plan entry and a pending move action. -/
def buildOrganizePlan (fs : Fs) (dirPath : Path) :
    List Path → List OrganizePlan × List TransactionAction
  | [] => ([], [])
  | filePath :: rest =>
    match fsLookup fs filePath with
    | none => buildOrganizePlan fs dirPath rest
    | some fileInfo =>
      let category := categorizeFile filePath
      let targetDir := pathJoin dirPath (categoryName category)
      let targetPath := pathJoin targetDir (basename filePath)
      if dirname filePath = targetDir then buildOrganizePlan fs dirPath rest
      else
        let r := buildOrganizePlan fs dirPath rest
        (⟨filePath, targetPath, category, basename filePath, fileInfo.size⟩ :: r.1,
         ⟨"", ActionType.move, filePath, some targetPath, ActionStatus.pending,
           none, none, some fileInfo.size⟩ :: r.2)

/-- The `byCategory[category] = (byCategory[category] || 0) + 1` object
update, as an insertion-ordered association list. -/
def bumpCategory : List (String × Nat) → String → List (String × Nat)
  | [], c => [(c, 1)]
  | (k, v) :: rest, c => if k = c then (k, v + 1) :: rest else (k, v) :: bumpCategory rest c

/-- `organize` pre-creates every category folder before executing. -/
def ensureAllCategoryDirs (fs : Fs) (dirPath : Path) : Fs :=
  getAllCategories.foldl (fun acc c => ensureDirectory acc (pathJoin dirPath (categoryName c))) fs

/-- The execution loop of `organize`: each planned move runs through
`safeMove` with collision resolution; the parallel action is marked
`completed` with the actual destination, or `failed` with the error.
Returns the final filesystem, updated actions, moved and failed counts. -/
def execMoveActions (fs : Fs) :
    List OrganizePlan → List TransactionAction → Fs × List TransactionAction × Nat × Nat
  | [], acts => (fs, acts, 0, 0)
  | _ :: _, [] => (fs, [], 0, 0)
  | item :: restPlan, action :: restActs =>
    let r := safeMove fs item.from_ item.to_ true
    let action' :=
      if r.2.success then { action with status := ActionStatus.completed, to_ := some r.2.to_ }
      else { action with status := ActionStatus.failed, error := r.2.error }
    let rest := execMoveActions r.1 restPlan restActs
    if r.2.success then (rest.1, action' :: rest.2.1, rest.2.2.1 + 1, rest.2.2.2)
    else (rest.1, action' :: rest.2.1, rest.2.2.1, rest.2.2.2 + 1)

/-- `OrganizerService.organize(dirPath, options)` over the raw listing
`allFiles` (the `DirectoryNotFound` pre-validation of the target, being
a guard on inputs outside this fragment, is assumed to have passed). -/
def organize (fs : Fs) (db : Db) (now : Nat) (transactionId : String) (dirPath : Path)
    (options : OrganizeOptions) (allFiles : List Path) :
    Fs × Db × Transaction × OrganizeResult :=
  let filePaths := getOrganizableFiles dirPath options.recursive allFiles
  let pa := buildOrganizePlan fs dirPath filePaths
  let plan := pa.1
  let byCategory := plan.foldl (fun acc e => bumpCategory acc (categoryName e.category)) []
  let ex :=
    if ¬ options.dryRun ∧ 0 < plan.length then
      execMoveActions (ensureAllCategoryDirs fs dirPath) plan pa.2
    else (fs, pa.2, 0, 0)
  let movedCount := ex.2.2.1
  let failedCount := ex.2.2.2
  let transaction : Transaction :=
    { transactionId := transactionId, type := TransactionType.organize,
      status :=
        if options.dryRun then TxStatus.pending
        else if failedCount = 0 then TxStatus.completed else TxStatus.partially_completed,
      actions := ex.2.1,
      summary := ⟨movedCount, 0, 0, failedCount, 0, plan.length⟩,
      targetPath := dirPath, dryRun := options.dryRun, strategy := none,
      completedAt := if options.dryRun then none else some now,
      rolledBackAt := none, rollbackTransactionId := none }
  (ex.1, dbInsert db transaction, transaction,
   { transactionId := transactionId, targetPath := dirPath, dryRun := options.dryRun,
     plan := plan, summary := ⟨plan.length, movedCount, failedCount, byCategory⟩ })


/-- One walked file with its stat and hash data, in listing order: the
item pushed into the deduper hash map. -/
abbrev FileEntry := Path × FileMeta

/-- Push one entry into the insertion-ordered hash map: append to its
hash group when present, else open a new group at the end (JavaScript
`Map` iteration follows key insertion order). -/
def insertGroup (f : FileEntry) : List (String × List FileEntry) → List (String × List FileEntry)
  | [] => [(f.2.hash, [f])]
  | (h, g) :: rest =>
    if h = f.2.hash then (h, g ++ [f]) :: rest else (h, g) :: insertGroup f rest

/-- The hash-map building loop of `dedupe` (and of the scanner). -/
def groupByHash (files : List FileEntry) : List (String × List FileEntry) :=
  files.foldl (fun acc f => insertGroup f acc) []

/-- The comparator of `sortByStrategy`, as the strict "must sort before"
relation: most recent `modifiedAt` first for keep-latest, earliest
`createdAt` first for keep-oldest, largest `size` first for
keep-largest. -/
def strictlyBefore (strategy : DedupeStrategy) (a b : FileEntry) : Bool :=
  match strategy with
  | .keepLatest => decide (b.2.modifiedAt < a.2.modifiedAt)
  | .keepOldest => decide (a.2.createdAt < b.2.createdAt)
  | .keepLargest => decide (b.2.size < a.2.size)

/-- Stable insertion: a later element passes over every earlier element
it does not strictly precede, so equal keys keep their original order. -/
def insertSorted (lt : FileEntry → FileEntry → Bool) (x : FileEntry) :
    List FileEntry → List FileEntry
  | [] => [x]
  | y :: ys => if lt x y then x :: y :: ys else y :: insertSorted lt x ys

/-- Stable sort (the unique sorted, stable permutation — what
JavaScript `Array.prototype.sort` returns for this comparator). -/
def stableSort (lt : FileEntry → FileEntry → Bool) (l : List FileEntry) : List FileEntry :=
  l.foldl (fun acc x => insertSorted lt x acc) []

/-- `DedupeService.sortByStrategy`. -/
def sortByStrategy (files : List FileEntry) (strategy : DedupeStrategy) : List FileEntry :=
  stableSort (strictlyBefore strategy) files

/-- One reported member of a duplicate group (`DuplicateInfo.files`). -/
structure DupFile where
  path : Path
  size : Nat
  createdAt : Nat
  modifiedAt : Nat
  isKept : Bool
deriving DecidableEq, Repr

/-- `sorted.map((f, idx) => ({...f, isKept: idx === 0}))`, carrying the
running index. -/
def markKept (idx : Nat) : List FileEntry → List DupFile
  | [] => []
  | f :: rest => ⟨f.1, f.2.size, f.2.createdAt, f.2.modifiedAt, idx == 0⟩ :: markKept (idx + 1) rest

/-- One duplicate group report (`DuplicateInfo`). -/
structure DuplicateInfo where
  hash : String
  files : List DupFile
  wastedSize : Nat
deriving DecidableEq, Repr

/-- Deduper options. -/
structure DedupeOptions where
  dryRun : Bool := false
  strategy : DedupeStrategy := .keepLatest
  moveToTrash : Bool := true
deriving DecidableEq, Repr

/-- The planning loop of `dedupe` over the hash groups, accumulating,
in order: the duplicate reports, the pending delete actions, the
duplicate-file count and the planned wasted-byte total. -/
def dedupePlanFold (trashDir : Path) (moveToTrash : Bool) (strategy : DedupeStrategy) :
    List (String × List FileEntry) → List DuplicateInfo × List TransactionAction × Nat × Nat
  | [] => ([], [], 0, 0)
  | (hash, files) :: rest =>
    if files.length ≤ 1 then dedupePlanFold trashDir moveToTrash strategy rest
    else
      let sorted := sortByStrategy files strategy
      let toRemove := sorted.drop 1
      let wastedSize := (toRemove.map (fun f => f.2.size)).sum
      let groupActions := toRemove.map (fun f =>
        (⟨"", ActionType.delete, f.1,
          if moveToTrash then some (pathJoin trashDir (basename f.1)) else none,
          ActionStatus.pending, none, some hash, some f.2.size⟩ : TransactionAction))
      let r := dedupePlanFold trashDir moveToTrash strategy rest
      (⟨hash, markKept 0 sorted, wastedSize⟩ :: r.1,
       groupActions ++ r.2.1, toRemove.length + r.2.2.1, wastedSize + r.2.2.2)

/-- The execution loop of `dedupe`: each pending delete runs through
`safeDelete` with the clock value of its loop index; a success marks the
action `completed` and records the actual trash path when one was used,
a failure marks it `failed`.  Returns the final filesystem, the updated
actions and the deleted and failed counts. -/
def execDeleteActions (trashDir : Path) (times : Nat → Nat) (moveToTrash : Bool) :
    Fs → Nat → List TransactionAction → Fs × List TransactionAction × Nat × Nat
  | fs, _, [] => (fs, [], 0, 0)
  | fs, i, action :: restActs =>
    let r := safeDelete fs trashDir (times i) action.from_ moveToTrash
    let action' :=
      if r.2.success then
        { action with status := ActionStatus.completed,
                      to_ := match r.2.trashPath with | some tp => some tp | none => action.to_ }
      else { action with status := ActionStatus.failed, error := r.2.error }
    let rest := execDeleteActions trashDir times moveToTrash r.1 (i + 1) restActs
    if r.2.success then (rest.1, action' :: rest.2.1, rest.2.2.1 + 1, rest.2.2.2)
    else (rest.1, action' :: rest.2.1, rest.2.2.1, rest.2.2.2 + 1)

/-- `Math.round`: round half toward positive infinity, as the
(kernel-computable) rational floor of `q + 1/2`. -/
def jsRound (q : ℚ) : ℤ := (q + 1 / 2).num / ((q + 1 / 2).den : ℤ)

/-- Summary block of a `DedupeResult`. -/
structure DedupeSummary where
  totalDuplicateGroups : Nat
  totalDuplicateFiles : Nat
  deletedCount : Nat
  failedCount : Nat
  savedBytes : Int
deriving DecidableEq, Repr

/-- Return value of `DedupeService.dedupe`. -/
structure DedupeResult where
  transactionId : String
  targetPath : Path
  dryRun : Bool
  strategy : DedupeStrategy
  duplicates : List DuplicateInfo
  summary : DedupeSummary
deriving DecidableEq, Repr

/-- `DedupeService.dedupe(dirPath, options)` over the hashed listing
`files` (the `DirectoryNotFound` pre-validation is outside this
fragment).  `times i` is `Date.now()` at execution-loop index `i`,
`now` is `Date.now()` at completion. -/
def dedupe (fs : Fs) (db : Db) (trashDir : Path) (times : Nat → Nat) (now : Nat)
    (transactionId : String) (dirPath : Path) (options : DedupeOptions)
    (files : List FileEntry) : Fs × Db × Transaction × DedupeResult :=
  let p := dedupePlanFold trashDir options.moveToTrash options.strategy (groupByHash files)
  let duplicates := p.1
  let actions := p.2.1
  let totalDuplicateFiles := p.2.2.1
  let savedBytes := p.2.2.2
  let ex :=
    if ¬ options.dryRun ∧ 0 < actions.length then
      execDeleteActions trashDir times options.moveToTrash
        (if options.moveToTrash then ensureDirectory fs trashDir else fs) 0 actions
    else (fs, actions, 0, 0)
  let deletedCount := ex.2.2.1
  let failedCount := ex.2.2.2
  let actualSavedBytes : ℚ :=
    if options.dryRun then 0
    else (savedBytes : ℚ) *
      ((deletedCount : ℚ) / (if actions.length = 0 then 1 else (actions.length : ℚ)))
  let transaction : Transaction :=
    { transactionId := transactionId, type := TransactionType.dedupe,
      status :=
        if options.dryRun then TxStatus.pending
        else if failedCount = 0 then TxStatus.completed else TxStatus.partially_completed,
      actions := ex.2.1,
      summary := ⟨0, deletedCount, 0, failedCount, jsRound actualSavedBytes, actions.length⟩,
      targetPath := dirPath, dryRun := options.dryRun, strategy := some options.strategy,
      completedAt := if options.dryRun then none else some now,
      rolledBackAt := none, rollbackTransactionId := none }
  (ex.1, dbInsert db transaction, transaction,
   { transactionId := transactionId, targetPath := dirPath, dryRun := options.dryRun,
     strategy := options.strategy, duplicates := duplicates,
     summary := ⟨duplicates.length, totalDuplicateFiles, deletedCount, failedCount,
       if options.dryRun then (savedBytes : ℤ) else jsRound actualSavedBytes⟩ })


/-- Per-action rollback outcomes. -/
inductive RbOutcome where
  | restored | failed | skipped
deriving DecidableEq, Repr

/-- One entry of `RollbackResult.details`. -/
structure RollbackDetail where
  from_ : Path
  to_ : Path
  status : RbOutcome
  error : Option String
deriving DecidableEq, Repr

/-- Summary block of a `RollbackResult`. -/
structure RollbackSummary where
  totalActions : Nat
  restoredCount : Nat
  failedCount : Nat
  skippedCount : Nat
deriving DecidableEq, Repr

/-- Return value of `RollbackService.rollback`. -/
structure RollbackResult where
  transactionId : String
  rollbackTransactionId : String
  originalType : TransactionType
  summary : RollbackSummary
  details : List RollbackDetail
deriving DecidableEq, Repr

/-- The fatal rollback errors, thrown before any mutation. -/
inductive RollbackError where
  | notFound | alreadyRolledBack | cannotRollbackDryRun
deriving DecidableEq, Repr

/-- `RollbackService.rollbackMove`: skip when the moved-to path is gone
or the original path is occupied, else recreate the original directory
and move back without collision handling. -/
def rollbackMove (fs : Fs) (action : TransactionAction) : Fs × RbOutcome × Option String :=
  match action.to_ with
  | none => (fs, RbOutcome.skipped, some "File no longer exists at moved location")
  | some t =>
    if ¬ fileExists fs t = true then
      (fs, RbOutcome.skipped, some "File no longer exists at moved location")
    else if fileExists fs action.from_ = true then
      (fs, RbOutcome.skipped, some "Original location is no longer available (file exists)")
    else
      let fs1 := ensureDirectory fs (dirname action.from_)
      let r := safeMove fs1 t action.from_ false
      if r.2.success then (r.1, RbOutcome.restored, none)
      else (r.1, RbOutcome.failed, r.2.error)

/-- `RollbackService.rollbackDelete`: restore the recorded trash copy
when one exists (collision handling on), else skip. -/
def rollbackDelete (fs : Fs) (action : TransactionAction) : Fs × RbOutcome × Option String :=
  match action.to_ with
  | some t =>
    if fileExists fs t = true then
      let fs1 := ensureDirectory fs (dirname action.from_)
      let r := safeMove fs1 t action.from_ true
      if r.2.success then (r.1, RbOutcome.restored, none)
      else (r.1, RbOutcome.failed, r.2.error)
    else (fs, RbOutcome.skipped, some "File was permanently deleted or trash file not found")
  | none => (fs, RbOutcome.skipped, some "File was permanently deleted or trash file not found")

/-- The `switch (action.type)` dispatch of the rollback loop; any other
action kind is skipped with an unsupported note. -/
def rollbackActionStep (fs : Fs) (action : TransactionAction) : Fs × RbOutcome × Option String :=
  match action.type with
  | .move => rollbackMove fs action
  | .delete => rollbackDelete fs action
  | .restore => (fs, RbOutcome.skipped, some "Unknown action type: restore")

/-- The rollback processing loop: for each action (already reversed) it
records one detail entry, one inverse `restore` action whose status is
`completed` unless the outcome was `failed`, and bumps the outcome
counters.  Returns the final filesystem, details, inverse actions, and
the restored, failed and skipped counts. -/
def execRollbackActions (fs : Fs) :
    List TransactionAction →
      Fs × List RollbackDetail × List TransactionAction × Nat × Nat × Nat
  | [] => (fs, [], [], 0, 0, 0)
  | action :: rest =>
    let s := rollbackActionStep fs action
    let outcome := s.2.1
    let err := s.2.2
    let detail : RollbackDetail := ⟨action.to_.getD action.from_, action.from_, outcome, err⟩
    let rbAction : TransactionAction :=
      ⟨"", ActionType.restore, action.to_.getD action.from_, some action.from_,
        (match outcome with
         | .restored => ActionStatus.completed
         | .failed => ActionStatus.failed
         | .skipped => ActionStatus.completed),
        err, action.fileHash, action.fileSize⟩
    let r := execRollbackActions s.1 rest
    (r.1, detail :: r.2.1, rbAction :: r.2.2.1,
     (match outcome with | .restored => r.2.2.2.1 + 1 | _ => r.2.2.2.1),
     (match outcome with | .failed => r.2.2.2.2.1 + 1 | _ => r.2.2.2.2.1),
     (match outcome with | .skipped => r.2.2.2.2.2 + 1 | _ => r.2.2.2.2.2))

/-- `RollbackService.rollback(transactionId)`.  The three eligibility
checks throw before any filesystem or store write; afterwards only the
`completed` actions are processed, in reverse recorded order, a new
`rollback` transaction is inserted and the original is marked
`rolled_back`.  `rbId` is the generated rollback transaction identifier
and `now` the completion clock. -/
def rollback (fs : Fs) (db : Db) (now : Nat) (rbId : String) (transactionId : String) :
    Fs × Db × Except RollbackError RollbackResult :=
  match dbFind db transactionId with
  | none => (fs, db, Except.error RollbackError.notFound)
  | some originalTransaction =>
    if originalTransaction.status = TxStatus.rolled_back then
      (fs, db, Except.error RollbackError.alreadyRolledBack)
    else if originalTransaction.dryRun = true then
      (fs, db, Except.error RollbackError.cannotRollbackDryRun)
    else
      let actionsToRollback :=
        originalTransaction.actions.filter (fun a => a.status = ActionStatus.completed)
      let reversedActions := actionsToRollback.reverse
      let e := execRollbackActions fs reversedActions
      let details := e.2.1
      let restoredCount := e.2.2.2.1
      let failedCount := e.2.2.2.2.1
      let skippedCount := e.2.2.2.2.2
      let rollbackTransaction : Transaction :=
        { transactionId := rbId, type := TransactionType.rollback,
          status := if failedCount = 0 then TxStatus.completed else TxStatus.partially_completed,
          actions := e.2.2.1,
          summary := ⟨0, 0, restoredCount, failedCount, 0, reversedActions.length⟩,
          targetPath := originalTransaction.targetPath, dryRun := false, strategy := none,
          completedAt := some now, rolledBackAt := none, rollbackTransactionId := none }
      let db1 := dbInsert db rollbackTransaction
      let db2 := dbUpdate db1
        { originalTransaction with
            status := TxStatus.rolled_back, rolledBackAt := some now,
            rollbackTransactionId := some rbId }
      (e.1, db2, Except.ok
        { transactionId := transactionId, rollbackTransactionId := rbId,
          originalType := originalTransaction.type,
          summary := ⟨reversedActions.length, restoredCount, failedCount, skippedCount⟩,
          details := details })


/-! ### Specification-side helper functions

These are not translations of source functions; they are auxiliary
executable functions used to state and prove properties of the
translations above. -/

/-- The trash destination `safeDelete` builds for execution-loop index
`i` of an action: `trashDir/<clock>_<basename>`. -/
def trashPathOf (trashDir : Path) (times : Nat → Nat) (i : Nat) (a : TransactionAction) : Path :=
  pathJoin trashDir (toString (times i) ++ "_" ++ basename a.from_)

/-- What the dedupe execution loop does to its action list when every
soft delete succeeds: mark completed and record the actual trash path. -/
def attachTrash (trashDir : Path) (times : Nat → Nat) :
    Nat → List TransactionAction → List TransactionAction
  | _, [] => []
  | i, a :: rest =>
    { a with status := ActionStatus.completed, to_ := some (trashPathOf trashDir times i a) } ::
      attachTrash trashDir times (i + 1) rest

/-- Champion fold: the current best is replaced only by a strictly
better later element, so the first optimum wins. -/
def firstBestFrom (lt : FileEntry → FileEntry → Bool) (b : FileEntry) :
    List FileEntry → FileEntry
  | [] => b
  | x :: xs => if lt x b then firstBestFrom lt x xs else firstBestFrom lt b xs

/-- The first element of the list attaining its optimum under `lt`. -/
def firstBest (lt : FileEntry → FileEntry → Bool) : List FileEntry → Option FileEntry
  | [] => none
  | x :: xs => some (firstBestFrom lt x xs)

/-- The strategy comparison key, as a signed integer so that every
strategy minimizes: keep-latest minimizes negated `modifiedAt`,
keep-oldest minimizes `createdAt`, keep-largest minimizes negated
`size`. -/
def strategyKey (strategy : DedupeStrategy) (f : FileEntry) : Int :=
  match strategy with
  | .keepLatest => -(f.2.modifiedAt : Int)
  | .keepOldest => (f.2.createdAt : Int)
  | .keepLargest => -(f.2.size : Int)


/-! ### Basic lemmas about paths and the filesystem model -/

theorem dirname_pathJoin (dir : Path) (name : String) : dirname (pathJoin dir name) = dir := by
  simp [dirname, pathJoin]

theorem basename_pathJoin (dir : Path) (name : String) : basename (pathJoin dir name) = name := by
  simp [basename, pathJoin, List.getLastD_concat]

theorem contains_iff_mem (l : List Path) (x : Path) : l.contains x = true ↔ x ∈ l := by
  simp [List.contains, List.elem_iff]

theorem fsAdd_files (fs : Fs) (p : Path) (m : FileMeta) :
    (fsAdd fs p m).files = (p, m) :: fs.files := rfl

theorem fsAdd_dirs (fs : Fs) (p : Path) (m : FileMeta) : (fsAdd fs p m).dirs = fs.dirs := rfl

theorem fsRemove_dirs (fs : Fs) (p : Path) : (fsRemove fs p).dirs = fs.dirs := rfl

theorem ensureDirectory_files (fs : Fs) (d : Path) : (ensureDirectory fs d).files = fs.files := by
  unfold ensureDirectory
  split <;> rfl

theorem mem_ensureDirectory_dirs (fs : Fs) (d q : Path) :
    q ∈ (ensureDirectory fs d).dirs ↔ q = d ∨ q ∈ fs.dirs := by
  unfold ensureDirectory
  split
  case isTrue h =>
    rw [contains_iff_mem] at h
    constructor
    · exact fun hq => Or.inr hq
    · rintro (rfl | hq)
      · exact h
      · exact hq
  case isFalse h =>
    simp only [List.mem_cons]

theorem ensureDirectory_dirs_of_contains (fs : Fs) (d : Path) (h : d ∈ fs.dirs) :
    ensureDirectory fs d = fs := by
  unfold ensureDirectory
  rw [if_pos ((contains_iff_mem fs.dirs d).mpr h)]

theorem fsLookup_fsAdd (fs : Fs) (p : Path) (m : FileMeta) (q : Path) :
    fsLookup (fsAdd fs p m) q = if p = q then some m else fsLookup fs q := by
  simp only [fsLookup, fsAdd]
  by_cases h : p = q
  · rw [List.find?_cons_of_pos _ (by simpa using h), if_pos h]
    rfl
  · rw [List.find?_cons_of_neg _ (by simpa using h), if_neg h]

theorem find?_filter_ne (l : List (Path × FileMeta)) (p q : Path) :
    (l.filter (fun e => ¬ e.fst = p)).find? (fun e => e.fst = q) =
      if p = q then none else l.find? (fun e => e.fst = q) := by
  induction l with
  | nil => simp
  | cons a l ih =>
    by_cases hp : a.fst = p
    · rw [List.filter_cons_of_neg (by simpa using hp), ih]
      by_cases hpq : p = q
      · rw [if_pos hpq, if_pos hpq]
      · rw [if_neg hpq, if_neg hpq, List.find?_cons_of_neg _ (by simp [hp, hpq])]
    · rw [List.filter_cons_of_pos (by simpa using hp)]
      by_cases hq : a.fst = q
      · rw [List.find?_cons_of_pos _ (by simpa using hq),
          List.find?_cons_of_pos _ (by simpa using hq)]
        have hpq : ¬ p = q := fun h => hp (hq.trans h.symm)
        rw [if_neg hpq]
      · rw [List.find?_cons_of_neg _ (by simpa using hq), ih,
          List.find?_cons_of_neg _ (by simpa using hq)]

theorem fsLookup_fsRemove (fs : Fs) (p : Path) (q : Path) :
    fsLookup (fsRemove fs p) q = if p = q then none else fsLookup fs q := by
  simp only [fsLookup, fsRemove, find?_filter_ne]
  by_cases h : p = q
  · rw [if_pos h, if_pos h]
    rfl
  · rw [if_neg h, if_neg h]

theorem fsLookup_ensureDirectory (fs : Fs) (d q : Path) :
    fsLookup (ensureDirectory fs d) q = fsLookup fs q := by
  simp only [fsLookup, ensureDirectory_files]

theorem fileExists_of_lookup_isSome (fs : Fs) (p : Path) (h : (fsLookup fs p).isSome = true) :
    fileExists fs p = true := by
  simp [fileExists, h]

theorem lookup_isSome_of_not_fileExists (fs : Fs) (p : Path) (h : fileExists fs p = false) :
    (fsLookup fs p).isSome = false := by
  simp only [fileExists, Bool.or_eq_false_iff] at h
  exact h.1

theorem not_mem_dirs_of_not_fileExists (fs : Fs) (p : Path) (h : fileExists fs p = false) :
    p ∉ fs.dirs := by
  simp only [fileExists, Bool.or_eq_false_iff] at h
  intro hm
  have := (contains_iff_mem fs.dirs p).mpr hm
  rw [h.2] at this
  exact Bool.false_ne_true this

theorem fileExists_eq_false_iff (fs : Fs) (p : Path) :
    fileExists fs p = false ↔ fsLookup fs p = none ∧ p ∉ fs.dirs := by
  constructor
  · intro h
    refine ⟨?_, not_mem_dirs_of_not_fileExists fs p h⟩
    simp only [fileExists, Bool.or_eq_false_iff] at h
    exact Option.not_isSome_iff_eq_none.mp (by simp [h.1])
  · rintro ⟨h1, h2⟩
    simp only [fileExists, Bool.or_eq_false_iff, h1]
    refine ⟨rfl, ?_⟩
    by_cases hc : fs.dirs.contains p = true
    · exact absurd ((contains_iff_mem fs.dirs p).mp hc) h2
    · simpa using hc


/-! ### C3: collision-resolution exhaustion -/

theorem uniqueLoop_const_true (dir : Path) (baseName ext : String) :
    ∀ n c, 999 - c = n → 1 ≤ c → c ≤ 999 →
      uniqueLoop (fun _ => true) dir baseName ext c = uniqueCandidate dir baseName ext 999 := by
  intro n
  induction n with
  | zero =>
    intro c hn h1 h2
    have hc : c = 999 := by omega
    subst hc
    unfold uniqueLoop
    rw [dif_neg (by omega)]
  | succ n ih =>
    intro c hn h1 h2
    have hc : c < 999 := by omega
    unfold uniqueLoop
    rw [dif_pos ⟨rfl, by omega⟩]
    exact ih (c + 1) (by omega) (by omega) (by omega)

/-- C3.  The claim says that when the destination and every suffixed
candidate already exist, the operation fails with a distinct
`CollisionUnresolved` error and never moves onto an existing path.  The
code has no such error: with every path existing, `getUniqueFilename`
walks its bounded loop and returns the final candidate `x_999.txt` even
though it exists, and `safeMove`'s rename then lands on an existing
path, replacing its content (demonstrated in the second conjunct: the
destination's previous metadata is replaced by the source's). -/
theorem getUniqueFilename_exhaustion_returns_existing_path :
    getUniqueFilename (fun _ => true) (pathJoin ["d"] "x.txt") = pathJoin ["d"] "x_999.txt" ∧
    (safeMove ⟨[(pathJoin ["s"] "f.txt", ⟨1, 0, 0, "hs"⟩),
                (pathJoin ["d"] "x_999.txt", ⟨2, 0, 0, "hb"⟩)], [["d"]]⟩
        (pathJoin ["s"] "f.txt") (pathJoin ["d"] "x_999.txt") false).2.success = true ∧
    fsLookup (safeMove ⟨[(pathJoin ["s"] "f.txt", ⟨1, 0, 0, "hs"⟩),
                (pathJoin ["d"] "x_999.txt", ⟨2, 0, 0, "hb"⟩)], [["d"]]⟩
        (pathJoin ["s"] "f.txt") (pathJoin ["d"] "x_999.txt") false).1
      (pathJoin ["d"] "x_999.txt") = some ⟨1, 0, 0, "hs"⟩ := by
  refine ⟨?_, by decide, by decide⟩
  have h1 : getUniqueFilename (fun _ => true) (pathJoin ["d"] "x.txt") =
      uniqueLoop (fun _ => true) ["d"] "x" ".txt" 1 := by
    simp only [getUniqueFilename]
    rw [if_neg (by simp)]
    congr 1
  rw [h1, uniqueLoop_const_true ["d"] "x" ".txt" 998 1 (by omega) (by omega) (by omega)]
  decide


/-! ### Store lemmas -/

theorem dbFind_id (db : Db) (tid : String) (t : Transaction) (h : dbFind db tid = some t) :
    t.transactionId = tid := by
  have := List.find?_some h
  simpa using this

theorem dbFind_append_of_some (db1 db2 : Db) (tid : String) (t : Transaction)
    (h : dbFind db1 tid = some t) : dbFind (db1 ++ db2) tid = some t := by
  simp [dbFind, List.find?_append] at h ⊢
  simp [h]

theorem dbFind_insert_fresh (db : Db) (t : Transaction) (tid : String)
    (h : dbFind db tid = none) (ht : t.transactionId = tid) :
    dbFind (dbInsert db t) tid = some t := by
  simp only [dbInsert, dbFind, List.find?_append]
  simp only [dbFind] at h
  rw [h]
  simp [List.find?, ht]

theorem dbFind_dbUpdate_of_some (db : Db) (u : Transaction) (tid : String) (t : Transaction)
    (h : dbFind db tid = some t) (hu : u.transactionId = tid) :
    dbFind (dbUpdate db u) tid = some u := by
  induction db with
  | nil => simp [dbFind] at h
  | cons a l ih =>
    by_cases ha : a.transactionId = tid
    · simp only [dbUpdate, List.map_cons, dbFind]
      rw [if_pos (by rw [ha, hu])]
      rw [List.find?_cons_of_pos _ (by simpa using hu)]
    · simp only [dbFind] at h
      rw [List.find?_cons_of_neg _ (by simpa using ha)] at h
      simp only [dbUpdate, List.map_cons, dbFind]
      rw [if_neg (by rw [hu]; exact ha)]
      rw [List.find?_cons_of_neg _ (by simpa using ha)]
      exact ih h

/-! ### C5: rollback failure modes -/

/-- C5.  `rollback` fails with `NotFound` when the identifier is
unknown, `AlreadyRolledBack` when the transaction is already rolled
back, and `CannotRollbackDryRun` when it is a dry run; each failure
leaves the filesystem and the store untouched and writes no rollback
transaction.  In particular a second rollback of a transaction just
rolled back fails with `AlreadyRolledBack` and mutates nothing. -/
theorem rollback_failure_modes (fs : Fs) (db : Db) (now now2 : Nat)
    (rbId rbId2 transactionId : String) :
    (dbFind db transactionId = none →
      rollback fs db now rbId transactionId = (fs, db, Except.error RollbackError.notFound)) ∧
    (∀ t, dbFind db transactionId = some t → t.status = TxStatus.rolled_back →
      rollback fs db now rbId transactionId =
        (fs, db, Except.error RollbackError.alreadyRolledBack)) ∧
    (∀ t, dbFind db transactionId = some t → t.status ≠ TxStatus.rolled_back →
      t.dryRun = true →
      rollback fs db now rbId transactionId =
        (fs, db, Except.error RollbackError.cannotRollbackDryRun)) ∧
    (∀ fs1 db1 res, rollback fs db now rbId transactionId = (fs1, db1, Except.ok res) →
      rollback fs1 db1 now2 rbId2 transactionId =
        (fs1, db1, Except.error RollbackError.alreadyRolledBack)) := by
  refine ⟨?_, ?_, ?_, ?_⟩
  · intro h
    simp [rollback, h]
  · intro t h hs
    simp [rollback, h, hs]
  · intro t h hs hd
    simp [rollback, h, hs, hd]
  · intro fs1 db1 res hok
    cases hfind : dbFind db transactionId with
    | none => simp [rollback, hfind] at hok
    | some orig =>
      by_cases hs : orig.status = TxStatus.rolled_back
      · simp [rollback, hfind, hs] at hok
      · by_cases hd : orig.dryRun = true
        · simp [rollback, hfind, hs, hd] at hok
        · simp only [rollback, hfind, if_neg hs, if_neg hd, Prod.mk.injEq] at hok
          obtain ⟨hfs1, hdb1, hres⟩ := hok
          have horigid := dbFind_id db transactionId orig hfind
          have hfound : dbFind db1 transactionId =
              some ({ orig with
                        status := TxStatus.rolled_back,
                        rolledBackAt := some now,
                        rollbackTransactionId := some rbId }) := by
            rw [← hdb1]
            exact dbFind_dbUpdate_of_some _ _ _ _
              (dbFind_append_of_some db _ transactionId orig hfind) horigid
          simp [rollback, hfound]

theorem rollback_failure_modes_witness :
    rollback ⟨[], []⟩ [] 0 "r1" "t1" = (⟨[], []⟩, [], Except.error RollbackError.notFound) ∧
    rollback ⟨[], []⟩
        [⟨"t1", TransactionType.organize, TxStatus.rolled_back, [], ⟨0, 0, 0, 0, 0, 0⟩,
          ["r"], false, none, none, none, none⟩] 0 "r1" "t1" =
      (⟨[], []⟩,
       [⟨"t1", TransactionType.organize, TxStatus.rolled_back, [], ⟨0, 0, 0, 0, 0, 0⟩,
         ["r"], false, none, none, none, none⟩],
       Except.error RollbackError.alreadyRolledBack) ∧
    rollback ⟨[], []⟩
        [⟨"t1", TransactionType.organize, TxStatus.pending, [], ⟨0, 0, 0, 0, 0, 0⟩,
          ["r"], true, none, none, none, none⟩] 0 "r1" "t1" =
      (⟨[], []⟩,
       [⟨"t1", TransactionType.organize, TxStatus.pending, [], ⟨0, 0, 0, 0, 0, 0⟩,
         ["r"], true, none, none, none, none⟩],
       Except.error RollbackError.cannotRollbackDryRun) ∧
    rollback ⟨[], []⟩
        [⟨"t1", TransactionType.organize, TxStatus.rolled_back, [], ⟨0, 0, 0, 0, 0, 0⟩,
          ["r"], false, none, none, some 0, some "r1"⟩,
         ⟨"r1", TransactionType.rollback, TxStatus.completed, [], ⟨0, 0, 0, 0, 0, 0⟩,
          ["r"], false, none, some 0, none, none⟩] 1 "r2" "t1" =
      (⟨[], []⟩,
       [⟨"t1", TransactionType.organize, TxStatus.rolled_back, [], ⟨0, 0, 0, 0, 0, 0⟩,
         ["r"], false, none, none, some 0, some "r1"⟩,
        ⟨"r1", TransactionType.rollback, TxStatus.completed, [], ⟨0, 0, 0, 0, 0, 0⟩,
         ["r"], false, none, some 0, none, none⟩],
       Except.error RollbackError.alreadyRolledBack) := by
  refine ⟨(rollback_failure_modes ⟨[], []⟩ [] 0 1 "r1" "r2" "t1").1 rfl,
    (rollback_failure_modes ⟨[], []⟩ _ 0 1 "r1" "r2" "t1").2.1 _ rfl rfl,
    (rollback_failure_modes ⟨[], []⟩ _ 0 1 "r1" "r2" "t1").2.2.1 _ rfl (by decide) rfl,
    (rollback_failure_modes ⟨[], []⟩
      [⟨"t1", TransactionType.organize, TxStatus.completed, [], ⟨0, 0, 0, 0, 0, 0⟩,
        ["r"], false, none, none, none, none⟩] 0 1 "r1" "r2" "t1").2.2.2 ⟨[], []⟩
      [⟨"t1", TransactionType.organize, TxStatus.rolled_back, [], ⟨0, 0, 0, 0, 0, 0⟩,
        ["r"], false, none, none, some 0, some "r1"⟩,
       ⟨"r1", TransactionType.rollback, TxStatus.completed, [], ⟨0, 0, 0, 0, 0, 0⟩,
        ["r"], false, none, some 0, none, none⟩]
      ⟨"t1", "r1", TransactionType.organize, ⟨0, 0, 0, 0⟩, []⟩ rfl⟩

/-! ### The rollback loop: processed set, order and recorded statuses -/

theorem execRollbackActions_spec (racts : List TransactionAction) : ∀ fs : Fs,
    (execRollbackActions fs racts).2.1.map (fun d => (d.from_, d.to_)) =
      racts.map (fun a => (a.to_.getD a.from_, a.from_)) ∧
    (execRollbackActions fs racts).2.1.length = racts.length ∧
    (∀ ra ∈ (execRollbackActions fs racts).2.2.1, ra.type = ActionType.restore) ∧
    (execRollbackActions fs racts).2.2.1.map (fun ra => ra.status) =
      (execRollbackActions fs racts).2.1.map
        (fun d => if d.status = RbOutcome.failed then ActionStatus.failed
                  else ActionStatus.completed) := by
  induction racts with
  | nil =>
    intro fs
    simp [execRollbackActions]
  | cons a rest ih =>
    intro fs
    obtain ⟨ih1, ih2, ih3, ih4⟩ := ih (rollbackActionStep fs a).1
    simp only [execRollbackActions, List.map_cons, List.length_cons, List.mem_cons]
    refine ⟨?_, ?_, ?_, ?_⟩
    · rw [ih1]
    · rw [ih2]
    · rintro ra (rfl | hra)
      · rfl
      · exact ih3 ra hra
    · rw [ih4]
      rcases h : (rollbackActionStep fs a).2.1 <;> simp [h]

/-- C6.  For a successful rollback, the details record exactly the
original transaction's `completed` actions, processed in reverse
recorded order (each detail maps the action's actual destination back
to its source); `pending` and `failed` actions are never processed, and
the reported total is the number of completed actions. -/
theorem rollback_processes_completed_actions_in_reverse (fs : Fs) (db : Db) (now : Nat)
    (rbId transactionId : String) :
    ∀ t fs1 db1 res, dbFind db transactionId = some t →
      rollback fs db now rbId transactionId = (fs1, db1, Except.ok res) →
      res.details.map (fun d => (d.from_, d.to_)) =
        ((t.actions.filter (fun a => a.status = ActionStatus.completed)).reverse).map
          (fun a => (a.to_.getD a.from_, a.from_)) ∧
      res.summary.totalActions =
        (t.actions.filter (fun a => a.status = ActionStatus.completed)).length := by
  intro t fs1 db1 res hfind hok
  by_cases hs : t.status = TxStatus.rolled_back
  · simp [rollback, hfind, hs] at hok
  · by_cases hd : t.dryRun = true
    · simp [rollback, hfind, hs, hd] at hok
    · simp only [rollback, hfind, if_neg hs, if_neg hd, Prod.mk.injEq] at hok
      obtain ⟨-, -, hres⟩ := hok
      obtain ⟨spec1, -, -, -⟩ := execRollbackActions_spec
        (t.actions.filter (fun a => a.status = ActionStatus.completed)).reverse fs
      have hres2 := hres.symm
      rw [Except.ok.injEq] at hres2
      subst hres2
      exact ⟨spec1, by simp⟩

theorem dbFind_update_insert_fresh (db : Db) (rbTx u : Transaction) (rbId : String)
    (hfresh : dbFind db rbId = none) (hid : rbTx.transactionId = rbId)
    (hne : ¬ u.transactionId = rbId) :
    dbFind (dbUpdate (dbInsert db rbTx) u) rbId = some rbTx := by
  induction db with
  | nil =>
    simp only [dbInsert, List.nil_append, dbUpdate, List.map_cons, List.map_nil, dbFind]
    rw [if_neg (fun h => hne (h.symm.trans hid))]
    rw [List.find?_cons_of_pos _ (by simpa using hid)]
  | cons a l ih =>
    simp only [dbFind] at hfresh
    have ha : ¬ a.transactionId = rbId := by
      intro h
      rw [List.find?_cons_of_pos _ (by simpa using h)] at hfresh
      exact Option.some_ne_none a hfresh
    rw [List.find?_cons_of_neg _ (by simpa using ha)] at hfresh
    simp only [dbInsert, List.cons_append, dbUpdate, List.map_cons, dbFind]
    by_cases hau : a.transactionId = u.transactionId
    · rw [if_pos hau, List.find?_cons_of_neg _ (by simpa using hne)]
      exact ih hfresh
    · rw [if_neg hau, List.find?_cons_of_neg _ (by simpa using ha)]
      exact ih hfresh

/-- C10.  The rollback transaction written by a successful rollback
holds one inverse `restore` action per processed action, whose status
is always `completed` or `failed`: a `skipped` outcome is recorded as
`completed` (only the error text keeps the skip reason), so recorded
statuses do not distinguish skipped from actually restored actions. -/
theorem rollback_actions_statuses (fs : Fs) (db : Db) (now : Nat)
    (rbId transactionId : String) :
    ∀ t fs1 db1 res, dbFind db transactionId = some t →
      dbFind db rbId = none → ¬ transactionId = rbId →
      rollback fs db now rbId transactionId = (fs1, db1, Except.ok res) →
      ∃ rbTx, dbFind db1 rbId = some rbTx ∧ rbTx.type = TransactionType.rollback ∧
        (∀ ra ∈ rbTx.actions, ra.type = ActionType.restore ∧
          (ra.status = ActionStatus.completed ∨ ra.status = ActionStatus.failed)) ∧
        rbTx.actions.map (fun ra => ra.status) =
          res.details.map
            (fun d => if d.status = RbOutcome.failed then ActionStatus.failed
                      else ActionStatus.completed) := by
  intro t fs1 db1 res hfind hfresh hne hok
  by_cases hs : t.status = TxStatus.rolled_back
  · simp [rollback, hfind, hs] at hok
  · by_cases hd : t.dryRun = true
    · simp [rollback, hfind, hs, hd] at hok
    · simp only [rollback, hfind, if_neg hs, if_neg hd, Prod.mk.injEq] at hok
      obtain ⟨-, hdb1, hres⟩ := hok
      obtain ⟨-, -, spec3, spec4⟩ := execRollbackActions_spec
        (t.actions.filter (fun a => a.status = ActionStatus.completed)).reverse fs
      have htid := dbFind_id db transactionId t hfind
      have hres2 := Except.ok.inj hres
      subst hres2
      subst hdb1
      refine ⟨_, dbFind_update_insert_fresh db _ _ rbId hfresh rfl
          (by simpa [htid] using hne), rfl, ?_, ?_⟩
      · intro ra hra
        refine ⟨spec3 ra hra, ?_⟩
        have hmem : ∃ x ∈ (execRollbackActions fs ((t.actions.filter
            (fun a => a.status = ActionStatus.completed)).reverse)).2.2.1,
            x.status = ra.status := ⟨ra, hra, rfl⟩
        have := congrArg (fun l => ra.status ∈ l) spec4
        simp only [List.mem_map, eq_iff_iff] at this
        obtain ⟨d, -, hd2⟩ := this.mp hmem
        by_cases hdf : d.status = RbOutcome.failed
        · right
          rw [← hd2, if_pos hdf]
        · left
          rw [← hd2, if_neg hdf]
      · exact spec4

theorem rollback_completed_reverse_witness :
    ((⟨"t1", "rb1", TransactionType.organize, ⟨2, 1, 0, 1⟩,
      [⟨["r", "x.txt"], ["r", "x.txt"], RbOutcome.skipped,
        some "File was permanently deleted or trash file not found"⟩,
       ⟨["r", "Documents", "doc.pdf"], ["r", "doc.pdf"], RbOutcome.restored, none⟩]⟩ : RollbackResult)).details.map (fun d => (d.from_, d.to_)) =
      (((⟨"t1", TransactionType.organize, TxStatus.partially_completed,
      [⟨"a1", ActionType.move, ["r", "doc.pdf"], some ["r", "Documents", "doc.pdf"],
        ActionStatus.completed, none, none, some 5⟩,
       ⟨"a2", ActionType.delete, ["r", "x.txt"], none, ActionStatus.completed, none, none, none⟩,
       ⟨"a3", ActionType.move, ["r", "y.txt"], some ["r", "Documents", "y.txt"],
        ActionStatus.failed, some "err", none, none⟩],
      ⟨1, 0, 0, 1, 0, 2⟩, ["r"], false, none, some 5, none, none⟩ : Transaction)).actions.filter
          (fun a => a.status = ActionStatus.completed)).reverse.map
        (fun a => (a.to_.getD a.from_, a.from_)) ∧
    ((⟨"t1", "rb1", TransactionType.organize, ⟨2, 1, 0, 1⟩,
      [⟨["r", "x.txt"], ["r", "x.txt"], RbOutcome.skipped,
        some "File was permanently deleted or trash file not found"⟩,
       ⟨["r", "Documents", "doc.pdf"], ["r", "doc.pdf"], RbOutcome.restored, none⟩]⟩ : RollbackResult)).summary.totalActions =
      (((⟨"t1", TransactionType.organize, TxStatus.partially_completed,
      [⟨"a1", ActionType.move, ["r", "doc.pdf"], some ["r", "Documents", "doc.pdf"],
        ActionStatus.completed, none, none, some 5⟩,
       ⟨"a2", ActionType.delete, ["r", "x.txt"], none, ActionStatus.completed, none, none, none⟩,
       ⟨"a3", ActionType.move, ["r", "y.txt"], some ["r", "Documents", "y.txt"],
        ActionStatus.failed, some "err", none, none⟩],
      ⟨1, 0, 0, 1, 0, 2⟩, ["r"], false, none, some 5, none, none⟩ : Transaction)).actions.filter
        (fun a => a.status = ActionStatus.completed) ).length :=
  rollback_processes_completed_actions_in_reverse ⟨[(["r", "Documents", "doc.pdf"], ⟨5, 0, 0, "hd"⟩)], [["r"], ["r", "Documents"]]⟩
    [⟨"t1", TransactionType.organize, TxStatus.partially_completed,
      [⟨"a1", ActionType.move, ["r", "doc.pdf"], some ["r", "Documents", "doc.pdf"],
        ActionStatus.completed, none, none, some 5⟩,
       ⟨"a2", ActionType.delete, ["r", "x.txt"], none, ActionStatus.completed, none, none, none⟩,
       ⟨"a3", ActionType.move, ["r", "y.txt"], some ["r", "Documents", "y.txt"],
        ActionStatus.failed, some "err", none, none⟩],
      ⟨1, 0, 0, 1, 0, 2⟩, ["r"], false, none, some 5, none, none⟩] 9 "rb1" "t1"
    ⟨"t1", TransactionType.organize, TxStatus.partially_completed,
      [⟨"a1", ActionType.move, ["r", "doc.pdf"], some ["r", "Documents", "doc.pdf"],
        ActionStatus.completed, none, none, some 5⟩,
       ⟨"a2", ActionType.delete, ["r", "x.txt"], none, ActionStatus.completed, none, none, none⟩,
       ⟨"a3", ActionType.move, ["r", "y.txt"], some ["r", "Documents", "y.txt"],
        ActionStatus.failed, some "err", none, none⟩],
      ⟨1, 0, 0, 1, 0, 2⟩, ["r"], false, none, some 5, none, none⟩
    ⟨[(["r", "doc.pdf"], ⟨5, 0, 0, "hd"⟩)], [["r"], ["r", "Documents"]]⟩
    [⟨"t1", TransactionType.organize, TxStatus.rolled_back,
      [⟨"a1", ActionType.move, ["r", "doc.pdf"], some ["r", "Documents", "doc.pdf"],
        ActionStatus.completed, none, none, some 5⟩,
       ⟨"a2", ActionType.delete, ["r", "x.txt"], none, ActionStatus.completed, none, none, none⟩,
       ⟨"a3", ActionType.move, ["r", "y.txt"], some ["r", "Documents", "y.txt"],
        ActionStatus.failed, some "err", none, none⟩],
      ⟨1, 0, 0, 1, 0, 2⟩, ["r"], false, none, some 5, some 9, some "rb1"⟩,
     ⟨"rb1", TransactionType.rollback, TxStatus.completed,
      [⟨"", ActionType.restore, ["r", "x.txt"], some ["r", "x.txt"], ActionStatus.completed,
        some "File was permanently deleted or trash file not found", none, none⟩,
       ⟨"", ActionType.restore, ["r", "Documents", "doc.pdf"], some ["r", "doc.pdf"],
        ActionStatus.completed, none, none, some 5⟩],
      ⟨0, 0, 1, 0, 0, 2⟩, ["r"], false, none, some 9, none, none⟩]
    ⟨"t1", "rb1", TransactionType.organize, ⟨2, 1, 0, 1⟩,
      [⟨["r", "x.txt"], ["r", "x.txt"], RbOutcome.skipped,
        some "File was permanently deleted or trash file not found"⟩,
       ⟨["r", "Documents", "doc.pdf"], ["r", "doc.pdf"], RbOutcome.restored, none⟩]⟩
    rfl rfl

theorem rollback_actions_statuses_witness :
    ∃ rbTx, dbFind
        [⟨"t1", TransactionType.organize, TxStatus.rolled_back,
      [⟨"a1", ActionType.move, ["r", "doc.pdf"], some ["r", "Documents", "doc.pdf"],
        ActionStatus.completed, none, none, some 5⟩,
       ⟨"a2", ActionType.delete, ["r", "x.txt"], none, ActionStatus.completed, none, none, none⟩,
       ⟨"a3", ActionType.move, ["r", "y.txt"], some ["r", "Documents", "y.txt"],
        ActionStatus.failed, some "err", none, none⟩],
      ⟨1, 0, 0, 1, 0, 2⟩, ["r"], false, none, some 5, some 9, some "rb1"⟩,
         ⟨"rb1", TransactionType.rollback, TxStatus.completed,
      [⟨"", ActionType.restore, ["r", "x.txt"], some ["r", "x.txt"], ActionStatus.completed,
        some "File was permanently deleted or trash file not found", none, none⟩,
       ⟨"", ActionType.restore, ["r", "Documents", "doc.pdf"], some ["r", "doc.pdf"],
        ActionStatus.completed, none, none, some 5⟩],
      ⟨0, 0, 1, 0, 0, 2⟩, ["r"], false, none, some 9, none, none⟩] "rb1" = some rbTx ∧
      rbTx.type = TransactionType.rollback ∧
      (∀ ra ∈ rbTx.actions, ra.type = ActionType.restore ∧
        (ra.status = ActionStatus.completed ∨ ra.status = ActionStatus.failed)) ∧
      rbTx.actions.map (fun ra => ra.status) =
        ((⟨"t1", "rb1", TransactionType.organize, ⟨2, 1, 0, 1⟩,
      [⟨["r", "x.txt"], ["r", "x.txt"], RbOutcome.skipped,
        some "File was permanently deleted or trash file not found"⟩,
       ⟨["r", "Documents", "doc.pdf"], ["r", "doc.pdf"], RbOutcome.restored, none⟩]⟩ : RollbackResult)).details.map
          (fun d => if d.status = RbOutcome.failed then ActionStatus.failed
                    else ActionStatus.completed) :=
  rollback_actions_statuses ⟨[(["r", "Documents", "doc.pdf"], ⟨5, 0, 0, "hd"⟩)], [["r"], ["r", "Documents"]]⟩
    [⟨"t1", TransactionType.organize, TxStatus.partially_completed,
      [⟨"a1", ActionType.move, ["r", "doc.pdf"], some ["r", "Documents", "doc.pdf"],
        ActionStatus.completed, none, none, some 5⟩,
       ⟨"a2", ActionType.delete, ["r", "x.txt"], none, ActionStatus.completed, none, none, none⟩,
       ⟨"a3", ActionType.move, ["r", "y.txt"], some ["r", "Documents", "y.txt"],
        ActionStatus.failed, some "err", none, none⟩],
      ⟨1, 0, 0, 1, 0, 2⟩, ["r"], false, none, some 5, none, none⟩] 9 "rb1" "t1"
    ⟨"t1", TransactionType.organize, TxStatus.partially_completed,
      [⟨"a1", ActionType.move, ["r", "doc.pdf"], some ["r", "Documents", "doc.pdf"],
        ActionStatus.completed, none, none, some 5⟩,
       ⟨"a2", ActionType.delete, ["r", "x.txt"], none, ActionStatus.completed, none, none, none⟩,
       ⟨"a3", ActionType.move, ["r", "y.txt"], some ["r", "Documents", "y.txt"],
        ActionStatus.failed, some "err", none, none⟩],
      ⟨1, 0, 0, 1, 0, 2⟩, ["r"], false, none, some 5, none, none⟩
    ⟨[(["r", "doc.pdf"], ⟨5, 0, 0, "hd"⟩)], [["r"], ["r", "Documents"]]⟩
    [⟨"t1", TransactionType.organize, TxStatus.rolled_back,
      [⟨"a1", ActionType.move, ["r", "doc.pdf"], some ["r", "Documents", "doc.pdf"],
        ActionStatus.completed, none, none, some 5⟩,
       ⟨"a2", ActionType.delete, ["r", "x.txt"], none, ActionStatus.completed, none, none, none⟩,
       ⟨"a3", ActionType.move, ["r", "y.txt"], some ["r", "Documents", "y.txt"],
        ActionStatus.failed, some "err", none, none⟩],
      ⟨1, 0, 0, 1, 0, 2⟩, ["r"], false, none, some 5, some 9, some "rb1"⟩,
     ⟨"rb1", TransactionType.rollback, TxStatus.completed,
      [⟨"", ActionType.restore, ["r", "x.txt"], some ["r", "x.txt"], ActionStatus.completed,
        some "File was permanently deleted or trash file not found", none, none⟩,
       ⟨"", ActionType.restore, ["r", "Documents", "doc.pdf"], some ["r", "doc.pdf"],
        ActionStatus.completed, none, none, some 5⟩],
      ⟨0, 0, 1, 0, 0, 2⟩, ["r"], false, none, some 9, none, none⟩]
    ⟨"t1", "rb1", TransactionType.organize, ⟨2, 1, 0, 1⟩,
      [⟨["r", "x.txt"], ["r", "x.txt"], RbOutcome.skipped,
        some "File was permanently deleted or trash file not found"⟩,
       ⟨["r", "Documents", "doc.pdf"], ["r", "doc.pdf"], RbOutcome.restored, none⟩]⟩
    rfl rfl (by decide) rfl

/-! ### C4: rollback transactions and the rollbackable query -/

/-- C4 counterexample.  The claim says a transaction written by the
rollback engine is not returned by the rollbackable-transactions query.
Concretely rolling back a completed dedupe transaction writes a
rollback transaction (dryRun false, status completed) and the query
then returns exactly that rollback transaction. -/
theorem rollback_tx_returned_by_query_counterexample :
    getRollbackableTransactions
        (rollback ⟨[], []⟩
          [⟨"t2", TransactionType.dedupe, TxStatus.completed, [], ⟨0, 0, 0, 0, 0, 0⟩,
            ["r"], false, some DedupeStrategy.keepLatest, some 0, none, none⟩]
          3 "rb2" "t2").2.1 =
      [⟨"rb2", TransactionType.rollback, TxStatus.completed, [], ⟨0, 0, 0, 0, 0, 0⟩,
        ["r"], false, none, some 3, none, none⟩] ∧
    (⟨"rb2", TransactionType.rollback, TxStatus.completed, [], ⟨0, 0, 0, 0, 0, 0⟩,
      ["r"], false, none, some 3, none, none⟩ : Transaction).type =
      TransactionType.rollback := by
  constructor
  · rfl
  · rfl

/-- C4 amended.  A transaction written by the rollback engine has
`dryRun = false` and status `completed` or `partially_completed`, so it
**does** satisfy the rollbackable-transactions query criteria and is
returned by it (until it is itself rolled back): nothing excludes
`type = rollback` from the query. -/
theorem rollback_transaction_satisfies_rollbackable_query (fs : Fs) (db : Db) (now : Nat)
    (rbId transactionId : String) :
    ∀ t fs1 db1 res, dbFind db transactionId = some t →
      dbFind db rbId = none → ¬ transactionId = rbId →
      rollback fs db now rbId transactionId = (fs1, db1, Except.ok res) →
      ∃ rbTx, dbFind db1 rbId = some rbTx ∧ rbTx.type = TransactionType.rollback ∧
        rbTx.dryRun = false ∧
        (rbTx.status = TxStatus.completed ∨ rbTx.status = TxStatus.partially_completed) ∧
        rbTx ∈ getRollbackableTransactions db1 := by
  intro t fs1 db1 res hfind hfresh hne hok
  by_cases hs : t.status = TxStatus.rolled_back
  · simp [rollback, hfind, hs] at hok
  · by_cases hd : t.dryRun = true
    · simp [rollback, hfind, hs, hd] at hok
    · simp only [rollback, hfind, if_neg hs, if_neg hd, Prod.mk.injEq] at hok
      obtain ⟨-, hdb1, -⟩ := hok
      have htid := dbFind_id db transactionId t hfind
      subst hdb1
      refine ⟨_, dbFind_update_insert_fresh db _ _ rbId hfresh rfl
          (by simpa [htid] using hne), rfl, rfl, ?_, ?_⟩
      · by_cases hf : (execRollbackActions fs ((t.actions.filter
            (fun a => a.status = ActionStatus.completed)).reverse)).2.2.2.2.1 = 0
        · left
          simp [hf]
        · right
          simp [hf]
      · refine List.mem_filter.mpr ⟨List.mem_of_find?_eq_some
          (dbFind_update_insert_fresh db _ _ rbId hfresh rfl
            (by simpa [htid] using hne)), ?_⟩
        by_cases hf : (execRollbackActions fs ((t.actions.filter
            (fun a => a.status = ActionStatus.completed)).reverse)).2.2.2.2.1 = 0 <;>
          simp [hf]

theorem rollback_transaction_rollbackable_witness :
    ∃ rbTx, dbFind
        [⟨"t2", TransactionType.dedupe, TxStatus.rolled_back, [], ⟨0, 0, 0, 0, 0, 0⟩,
          ["r"], false, some DedupeStrategy.keepLatest, some 0, some 3, some "rb2"⟩,
         ⟨"rb2", TransactionType.rollback, TxStatus.completed, [], ⟨0, 0, 0, 0, 0, 0⟩,
          ["r"], false, none, some 3, none, none⟩] "rb2" = some rbTx ∧
      rbTx.type = TransactionType.rollback ∧ rbTx.dryRun = false ∧
      (rbTx.status = TxStatus.completed ∨ rbTx.status = TxStatus.partially_completed) ∧
      rbTx ∈ getRollbackableTransactions
        [⟨"t2", TransactionType.dedupe, TxStatus.rolled_back, [], ⟨0, 0, 0, 0, 0, 0⟩,
          ["r"], false, some DedupeStrategy.keepLatest, some 0, some 3, some "rb2"⟩,
         ⟨"rb2", TransactionType.rollback, TxStatus.completed, [], ⟨0, 0, 0, 0, 0, 0⟩,
          ["r"], false, none, some 3, none, none⟩] :=
  rollback_transaction_satisfies_rollbackable_query ⟨[], []⟩
    [⟨"t2", TransactionType.dedupe, TxStatus.completed, [], ⟨0, 0, 0, 0, 0, 0⟩,
      ["r"], false, some DedupeStrategy.keepLatest, some 0, none, none⟩]
    3 "rb2" "t2"
    ⟨"t2", TransactionType.dedupe, TxStatus.completed, [], ⟨0, 0, 0, 0, 0, 0⟩,
      ["r"], false, some DedupeStrategy.keepLatest, some 0, none, none⟩
    ⟨[], []⟩
    [⟨"t2", TransactionType.dedupe, TxStatus.rolled_back, [], ⟨0, 0, 0, 0, 0, 0⟩,
      ["r"], false, some DedupeStrategy.keepLatest, some 0, some 3, some "rb2"⟩,
     ⟨"rb2", TransactionType.rollback, TxStatus.completed, [], ⟨0, 0, 0, 0, 0, 0⟩,
      ["r"], false, none, some 3, none, none⟩]
    ⟨"t2", "rb2", TransactionType.dedupe, ⟨0, 0, 0, 0⟩, []⟩
    rfl rfl (by decide) rfl

/-! ### C9: dry runs are pure and leave pending transactions -/

theorem buildOrganizePlan_actions_pending (fs : Fs) (dirPath : Path) :
    ∀ l, ∀ a ∈ (buildOrganizePlan fs dirPath l).2, a.status = ActionStatus.pending := by
  intro l
  induction l with
  | nil => simp [buildOrganizePlan]
  | cons p rest ih =>
    intro a ha
    simp only [buildOrganizePlan] at ha
    split at ha
    · exact ih a ha
    · split at ha
      · exact ih a ha
      · rcases List.mem_cons.mp ha with rfl | ha2
        · rfl
        · exact ih a ha2

theorem dedupePlanFold_actions_pending (trashDir : Path) (moveToTrash : Bool)
    (strategy : DedupeStrategy) :
    ∀ gs, ∀ a ∈ (dedupePlanFold trashDir moveToTrash strategy gs).2.1,
      a.status = ActionStatus.pending := by
  intro gs
  induction gs with
  | nil => simp [dedupePlanFold]
  | cons g rest ih =>
    intro a ha
    simp only [dedupePlanFold] at ha
    by_cases hlen : g.2.length ≤ 1
    · rw [if_pos hlen] at ha
      exact ih a ha
    · rw [if_neg hlen] at ha
      rcases List.mem_append.mp ha with ha1 | ha2
      · obtain ⟨f, -, rfl⟩ := List.mem_map.mp ha1
        rfl
      · exact ih a ha2

/-- C9.  A dry-run organize and a dry-run dedupe both persist a
transaction whose lifecycle status is `pending`, none of whose actions
is `completed` (all stay `pending`), and neither touches the
filesystem: the returned filesystem is the input one, so no move,
delete or directory creation happened. -/
theorem dry_run_transactions_pending_and_pure (fs : Fs) (db : Db) (now : Nat)
    (txId : String) (dirPath : Path) (oopts : OrganizeOptions) (allFiles : List Path)
    (trashDir : Path) (times : Nat → Nat) (dopts : DedupeOptions) (files : List FileEntry)
    (ho : oopts.dryRun = true) (hd : dopts.dryRun = true) :
    ((organize fs db now txId dirPath oopts allFiles).1 = fs ∧
     (organize fs db now txId dirPath oopts allFiles).2.2.1.status = TxStatus.pending ∧
     ∀ a ∈ (organize fs db now txId dirPath oopts allFiles).2.2.1.actions,
       ¬ a.status = ActionStatus.completed) ∧
    ((dedupe fs db trashDir times now txId dirPath dopts files).1 = fs ∧
     (dedupe fs db trashDir times now txId dirPath dopts files).2.2.1.status =
       TxStatus.pending ∧
     ∀ a ∈ (dedupe fs db trashDir times now txId dirPath dopts files).2.2.1.actions,
       ¬ a.status = ActionStatus.completed) := by
  constructor
  · refine ⟨?_, ?_, ?_⟩
    · simp [organize, ho]
    · simp [organize, ho]
    · intro a ha
      simp only [organize, ho, not_true_eq_false, false_and, if_neg, if_false] at ha
      rw [buildOrganizePlan_actions_pending fs dirPath _ a ha]
      simp
  · refine ⟨?_, ?_, ?_⟩
    · simp [dedupe, hd]
    · simp [dedupe, hd]
    · intro a ha
      simp only [dedupe, hd, not_true_eq_false, false_and, if_neg, if_false] at ha
      rw [dedupePlanFold_actions_pending trashDir dopts.moveToTrash dopts.strategy _ a ha]
      simp

theorem dry_run_pending_and_pure_witness :
    ((organize ⟨[(["r", "a.pdf"], ⟨1, 0, 0, "h"⟩)], [["r"]]⟩ [] 0 "o1" ["r"]
        ⟨true, false⟩ [["r", "a.pdf"]]).1 =
       ⟨[(["r", "a.pdf"], ⟨1, 0, 0, "h"⟩)], [["r"]]⟩ ∧
     (organize ⟨[(["r", "a.pdf"], ⟨1, 0, 0, "h"⟩)], [["r"]]⟩ [] 0 "o1" ["r"]
        ⟨true, false⟩ [["r", "a.pdf"]]).2.2.1.status = TxStatus.pending ∧
     ∀ a ∈ (organize ⟨[(["r", "a.pdf"], ⟨1, 0, 0, "h"⟩)], [["r"]]⟩ [] 0 "o1" ["r"]
        ⟨true, false⟩ [["r", "a.pdf"]]).2.2.1.actions,
       ¬ a.status = ActionStatus.completed) ∧
    ((dedupe ⟨[(["r", "a.pdf"], ⟨1, 0, 0, "h"⟩)], [["r"]]⟩ [] ["trash"] (fun i => i) 0 "o1"
        ["r"] ⟨true, DedupeStrategy.keepLatest, true⟩ [(["r", "a.pdf"], ⟨1, 0, 0, "h"⟩)]).1 =
       ⟨[(["r", "a.pdf"], ⟨1, 0, 0, "h"⟩)], [["r"]]⟩ ∧
     (dedupe ⟨[(["r", "a.pdf"], ⟨1, 0, 0, "h"⟩)], [["r"]]⟩ [] ["trash"] (fun i => i) 0 "o1"
        ["r"] ⟨true, DedupeStrategy.keepLatest, true⟩
        [(["r", "a.pdf"], ⟨1, 0, 0, "h"⟩)]).2.2.1.status = TxStatus.pending ∧
     ∀ a ∈ (dedupe ⟨[(["r", "a.pdf"], ⟨1, 0, 0, "h"⟩)], [["r"]]⟩ [] ["trash"] (fun i => i) 0
        "o1" ["r"] ⟨true, DedupeStrategy.keepLatest, true⟩
        [(["r", "a.pdf"], ⟨1, 0, 0, "h"⟩)]).2.2.1.actions,
       ¬ a.status = ActionStatus.completed) :=
  dry_run_transactions_pending_and_pure ⟨[(["r", "a.pdf"], ⟨1, 0, 0, "h"⟩)], [["r"]]⟩ [] 0
    "o1" ["r"] ⟨true, false⟩ [["r", "a.pdf"]] ["trash"] (fun i => i)
    ⟨true, DedupeStrategy.keepLatest, true⟩ [(["r", "a.pdf"], ⟨1, 0, 0, "h"⟩)] rfl rfl

/-! ### C7: keep-strategy selection -/

theorem insertSorted_head (lt : FileEntry → FileEntry → Bool) (x : FileEntry) :
    ∀ l : List FileEntry, (insertSorted lt x l).head? =
      some (match l with | [] => x | y :: _ => if lt x y then x else y) := by
  intro l
  cases l with
  | nil => rfl
  | cons y ys => by_cases h : lt x y = true <;> simp [insertSorted, h]

theorem foldl_insertSorted_head (lt : FileEntry → FileEntry → Bool) :
    ∀ (l acc : List FileEntry) (b : FileEntry), acc.head? = some b →
      (List.foldl (fun a x => insertSorted lt x a) acc l).head? =
        some (firstBestFrom lt b l) := by
  intro l
  induction l with
  | nil =>
    intro acc b h
    simpa [firstBestFrom] using h
  | cons x xs ih =>
    intro acc b h
    simp only [List.foldl_cons, firstBestFrom]
    have hh : (insertSorted lt x acc).head? = some (if lt x b then x else b) := by
      rw [insertSorted_head]
      cases acc with
      | nil => simp at h
      | cons a as =>
        simp only [List.head?_cons, Option.some.injEq] at h
        subst h
        rfl
    by_cases hx : lt x b = true
    · rw [if_pos hx] at hh
      rw [if_pos hx]
      exact ih _ x hh
    · rw [if_neg hx] at hh
      rw [if_neg hx]
      exact ih _ b hh

theorem stableSort_head (lt : FileEntry → FileEntry → Bool) (l : List FileEntry) :
    (stableSort lt l).head? = firstBest lt l := by
  cases l with
  | nil => rfl
  | cons x xs =>
    simp only [stableSort, List.foldl_cons, firstBest]
    exact foldl_insertSorted_head lt xs (insertSorted lt x []) x (by simp [insertSorted])

theorem firstBestFrom_le (key : FileEntry → Int) :
    ∀ (l : List FileEntry) (b : FileEntry),
      key (firstBestFrom (fun a c => decide (key a < key c)) b l) ≤ key b ∧
      ∀ f ∈ l, key (firstBestFrom (fun a c => decide (key a < key c)) b l) ≤ key f := by
  intro l
  induction l with
  | nil =>
    intro b
    simp [firstBestFrom]
  | cons x xs ih =>
    intro b
    simp only [firstBestFrom]
    by_cases hx : key x < key b
    · rw [if_pos (by simpa using hx)]
      obtain ⟨h1, h2⟩ := ih x
      refine ⟨le_trans h1 (le_of_lt hx), ?_⟩
      intro f hf
      rcases List.mem_cons.mp hf with rfl | hf2
      · exact h1
      · exact h2 f hf2
    · rw [if_neg (by simpa using hx)]
      obtain ⟨h1, h2⟩ := ih b
      refine ⟨h1, ?_⟩
      intro f hf
      rcases List.mem_cons.mp hf with rfl | hf2
      · exact le_trans h1 (by omega)
      · exact h2 f hf2

theorem firstBestFrom_split (key : FileEntry → Int) :
    ∀ (l : List FileEntry) (b : FileEntry),
      firstBestFrom (fun a c => decide (key a < key c)) b l = b ∨
      ∃ pre post, l = pre ++ firstBestFrom (fun a c => decide (key a < key c)) b l :: post ∧
        key (firstBestFrom (fun a c => decide (key a < key c)) b l) < key b ∧
        ∀ f ∈ pre, key (firstBestFrom (fun a c => decide (key a < key c)) b l) < key f := by
  intro l
  induction l with
  | nil =>
    intro b
    left
    rfl
  | cons x xs ih =>
    intro b
    by_cases hx : key x < key b
    · have hrw : firstBestFrom (fun a c => decide (key a < key c)) b (x :: xs) =
          firstBestFrom (fun a c => decide (key a < key c)) x xs := by
        simp only [firstBestFrom]
        rw [if_pos (by simpa using hx)]
      rw [hrw]
      rcases ih x with heq | ⟨pre, post, heqg, hltb, hpre⟩
      · right
        refine ⟨[], xs, ?_, ?_, ?_⟩
        · rw [heq]
          rfl
        · rw [heq]
          exact hx
        · simp
      · right
        refine ⟨x :: pre, post, ?_, lt_trans hltb hx, ?_⟩
        · rw [List.cons_append, ← heqg]
        · intro f hf
          rcases List.mem_cons.mp hf with rfl | hf2
          · exact hltb
          · exact hpre f hf2
    · have hrw : firstBestFrom (fun a c => decide (key a < key c)) b (x :: xs) =
          firstBestFrom (fun a c => decide (key a < key c)) b xs := by
        simp only [firstBestFrom]
        rw [if_neg (by simpa using hx)]
      rw [hrw]
      rcases ih b with heq | ⟨pre, post, heqg, hltb, hpre⟩
      · left
        exact heq
      · right
        refine ⟨x :: pre, post, ?_, hltb, ?_⟩
        · rw [List.cons_append, ← heqg]
        · intro f hf
          rcases List.mem_cons.mp hf with rfl | hf2
          · omega
          · exact hpre f hf2

theorem keepSelection_generic (key : FileEntry → Int) (g : List FileEntry) (hg : g ≠ []) :
    ∃ k pre post,
      (stableSort (fun a c => decide (key a < key c)) g).head? = some k ∧
      g = pre ++ k :: post ∧
      (∀ f ∈ g, key k ≤ key f) ∧
      (∀ f ∈ pre, key k < key f) := by
  obtain ⟨x, xs, rfl⟩ : ∃ x xs, g = x :: xs := by
    cases g with
    | nil => exact absurd rfl hg
    | cons x xs => exact ⟨x, xs, rfl⟩
  have hhead : (stableSort (fun a c => decide (key a < key c)) (x :: xs)).head? =
      some (firstBestFrom (fun a c => decide (key a < key c)) x xs) := by
    rw [stableSort_head]
    rfl
  obtain ⟨hle_b, hle_l⟩ := firstBestFrom_le key xs x
  rcases firstBestFrom_split key xs x with heq | ⟨pre, post, heqg, hltb, hpre⟩
  · refine ⟨x, [], xs, ?_, rfl, ?_, by simp⟩
    · rw [hhead, heq]
    · intro f hf
      rcases List.mem_cons.mp hf with rfl | hf2
      · exact le_refl _
      · have := hle_l f hf2
        rw [heq] at this
        exact this
  · refine ⟨_, x :: pre, post, hhead, ?_, ?_, ?_⟩
    · rw [List.cons_append, ← heqg]
    · intro f hf
      rcases List.mem_cons.mp hf with rfl | hf2
      · exact hle_b
      · exact hle_l f hf2
    · intro f hf
      rcases List.mem_cons.mp hf with rfl | hf2
      · exact hltb
      · exact hpre f hf2

theorem strictlyBefore_eq_key (strategy : DedupeStrategy) :
    strictlyBefore strategy =
      fun a b => decide (strategyKey strategy a < strategyKey strategy b) := by
  funext a b
  cases strategy <;>
    simp only [strictlyBefore, strategyKey, decide_eq_decide] <;> omega

theorem markKept_countP_succ :
    ∀ (l : List FileEntry) (i : Nat),
      (markKept (i + 1) l).countP (fun df => df.isKept) = 0 := by
  intro l
  induction l with
  | nil =>
    intro i
    simp [markKept]
  | cons f rest ih =>
    intro i
    simp only [markKept, List.countP_cons, ih]
    simp

theorem markKept_countP_head (l : List FileEntry) (k : FileEntry) (h : l.head? = some k) :
    (markKept 0 l).countP (fun df => df.isKept) = 1 := by
  cases l with
  | nil => simp at h
  | cons a t =>
    simp only [markKept, List.countP_cons, markKept_countP_succ]
    simp

/-- C7.  For every duplicate group (hash group of size at least 2),
`sortByStrategy` puts at its head — and the planner marks as the one
kept member (`isKept` count is exactly 1) — a member that is optimal
for the strategy (latest `modifiedAt` for keep-latest, earliest
`createdAt` for keep-oldest, greatest `size` for keep-largest) and that
is the **first** such member in the group's listing order: every member
before it in the group is strictly worse, so ties go to the first
encountered and selection is deterministic for a fixed listing. -/
theorem dedupe_keep_selection (files : List FileEntry) (strategy : DedupeStrategy) :
    ∀ h g, (h, g) ∈ groupByHash files → 2 ≤ g.length →
      ∃ k pre post,
        (sortByStrategy g strategy).head? = some k ∧
        (markKept 0 (sortByStrategy g strategy)).countP (fun df => df.isKept) = 1 ∧
        g = pre ++ k :: post ∧
        (match strategy with
         | .keepLatest => (∀ f ∈ g, f.2.modifiedAt ≤ k.2.modifiedAt) ∧
             ∀ f ∈ pre, f.2.modifiedAt < k.2.modifiedAt
         | .keepOldest => (∀ f ∈ g, k.2.createdAt ≤ f.2.createdAt) ∧
             ∀ f ∈ pre, k.2.createdAt < f.2.createdAt
         | .keepLargest => (∀ f ∈ g, f.2.size ≤ k.2.size) ∧
             ∀ f ∈ pre, f.2.size < k.2.size) := by
  intro h g hmem hlen
  have hg : g ≠ [] := by
    intro hnil
    rw [hnil] at hlen
    simp at hlen
  obtain ⟨k, pre, post, hhead, hsplit, hopt, hpre⟩ :=
    keepSelection_generic (strategyKey strategy) g hg
  have hsort : (sortByStrategy g strategy).head? = some k := by
    rw [sortByStrategy, strictlyBefore_eq_key]
    exact hhead
  refine ⟨k, pre, post, hsort, markKept_countP_head _ k hsort, hsplit, ?_⟩
  cases strategy with
  | keepLatest =>
    refine ⟨fun f hf => ?_, fun f hf => ?_⟩
    · have := hopt f hf
      simp only [strategyKey] at this
      omega
    · have := hpre f hf
      simp only [strategyKey] at this
      omega
  | keepOldest =>
    refine ⟨fun f hf => ?_, fun f hf => ?_⟩
    · have := hopt f hf
      simp only [strategyKey] at this
      omega
    · have := hpre f hf
      simp only [strategyKey] at this
      omega
  | keepLargest =>
    refine ⟨fun f hf => ?_, fun f hf => ?_⟩
    · have := hopt f hf
      simp only [strategyKey] at this
      omega
    · have := hpre f hf
      simp only [strategyKey] at this
      omega

theorem dedupe_keep_selection_witness :
    ∃ k pre post,
      (sortByStrategy [((["r", "a"], ⟨3, 0, 7, "h"⟩) : FileEntry), ((["r", "b"], ⟨3, 0, 7, "h"⟩) : FileEntry)]
        DedupeStrategy.keepLatest).head? = some k ∧
      (markKept 0 (sortByStrategy [((["r", "a"], ⟨3, 0, 7, "h"⟩) : FileEntry), ((["r", "b"], ⟨3, 0, 7, "h"⟩) : FileEntry)]
        DedupeStrategy.keepLatest)).countP (fun df => df.isKept) = 1 ∧
      [((["r", "a"], ⟨3, 0, 7, "h"⟩) : FileEntry), ((["r", "b"], ⟨3, 0, 7, "h"⟩) : FileEntry)] =
        pre ++ k :: post ∧
      (∀ f ∈ [((["r", "a"], ⟨3, 0, 7, "h"⟩) : FileEntry), ((["r", "b"], ⟨3, 0, 7, "h"⟩) : FileEntry)],
        f.2.modifiedAt ≤ k.2.modifiedAt) ∧
      ∀ f ∈ pre, f.2.modifiedAt < k.2.modifiedAt :=
  dedupe_keep_selection
    [((["r", "a"], ⟨3, 0, 7, "h"⟩) : FileEntry), ((["r", "b"], ⟨3, 0, 7, "h"⟩) : FileEntry),
     ((["r", "c"], ⟨1, 0, 0, "h2"⟩) : FileEntry)]
    DedupeStrategy.keepLatest "h"
    [((["r", "a"], ⟨3, 0, 7, "h"⟩) : FileEntry), ((["r", "b"], ⟨3, 0, 7, "h"⟩) : FileEntry)]
    (by decide) (by decide)

/-! ### C8: the saved-bytes accounting -/

theorem execDeleteActions_counts (trashDir : Path) (times : Nat → Nat) (moveToTrash : Bool) :
    ∀ (acts : List TransactionAction) (fs : Fs) (i : Nat),
      (execDeleteActions trashDir times moveToTrash fs i acts).2.1.length = acts.length ∧
      (execDeleteActions trashDir times moveToTrash fs i acts).2.2.1 =
        (execDeleteActions trashDir times moveToTrash fs i acts).2.1.countP
          (fun a => a.status = ActionStatus.completed) ∧
      (execDeleteActions trashDir times moveToTrash fs i acts).2.2.1 +
        (execDeleteActions trashDir times moveToTrash fs i acts).2.2.2 = acts.length := by
  intro acts
  induction acts with
  | nil =>
    intro fs i
    simp [execDeleteActions]
  | cons action rest ih =>
    intro fs i
    obtain ⟨ih1, ih2, ih3⟩ :=
      ih (safeDelete fs trashDir (times i) action.from_ moveToTrash).1 (i + 1)
    simp only [execDeleteActions]
    by_cases hsucc :
        (safeDelete fs trashDir (times i) action.from_ moveToTrash).2.success = true
    · simp only [hsucc, if_pos, if_true, List.length_cons, List.countP_cons]
      refine ⟨by rw [ih1], ?_, by omega⟩
      rw [ih2]
      simp
    · simp only [hsucc, if_neg, if_false, Bool.false_eq_true, List.length_cons,
        List.countP_cons]
      refine ⟨by rw [ih1], ?_, by omega⟩
      rw [ih2]
      simp

theorem dedupePlanFold_savedBytes (trashDir : Path) (moveToTrash : Bool)
    (strategy : DedupeStrategy) :
    ∀ gs, (dedupePlanFold trashDir moveToTrash strategy gs).2.2.2 =
      ((dedupePlanFold trashDir moveToTrash strategy gs).1.map
        (fun d => d.wastedSize)).sum := by
  intro gs
  induction gs with
  | nil => rfl
  | cons g rest ih =>
    simp only [dedupePlanFold]
    by_cases hlen : g.2.length ≤ 1
    · rw [if_pos hlen]
      exact ih
    · rw [if_neg hlen]
      simp only [List.map_cons, List.sum_cons]
      rw [ih]

theorem jsRound_eq (q : ℚ) : jsRound q = ⌊q + 1 / 2⌋ := Rat.floor_def.symm

theorem jsRound_le (W c n : Nat) (hcn : c ≤ n) :
    jsRound ((W : ℚ) * ((c : ℚ) / (if n = 0 then 1 else (n : ℚ)))) ≤ (W : ℤ) := by
  have hfloor_half : (⌊(1 : ℚ) / 2⌋ : ℤ) = 0 := by
    rw [Int.floor_eq_zero_iff]
    constructor <;> norm_num
  have hq : (W : ℚ) * ((c : ℚ) / (if n = 0 then 1 else (n : ℚ))) ≤ (W : ℚ) := by
    by_cases hn : n = 0
    · subst hn
      have hc : c = 0 := by omega
      subst hc
      simp
    · rw [if_neg hn]
      have hnpos : (0 : ℚ) < (n : ℚ) := by
        have : 0 < n := Nat.pos_of_ne_zero hn
        exact_mod_cast this
      have hdiv : (c : ℚ) / (n : ℚ) ≤ 1 := by
        rw [div_le_one hnpos]
        exact_mod_cast hcn
      calc (W : ℚ) * ((c : ℚ) / (n : ℚ)) ≤ (W : ℚ) * 1 :=
            mul_le_mul_of_nonneg_left hdiv (by positivity)
        _ = (W : ℚ) := mul_one _
  have hmono : jsRound ((W : ℚ) * ((c : ℚ) / (if n = 0 then 1 else (n : ℚ)))) ≤
      jsRound (W : ℚ) := by
    rw [jsRound_eq, jsRound_eq]
    exact Int.floor_le_floor (by linarith)
  refine le_trans hmono ?_
  rw [jsRound_eq]
  have hcast : ((W : ℚ) + 1 / 2) = ((W : ℤ) : ℚ) + 1 / 2 := by push_cast; ring
  rw [hcast, Int.floor_int_add, hfloor_half, add_zero]

/-- C8.  For a non-dry-run dedupe, the reported saved bytes equals the
planned wasted-bytes total (the sum of the duplicate groups' wasted
sizes) scaled by the fraction of delete actions that completed (the
divisor taken as 1 when there are no actions), rounded by
`Math.round`; and this value never exceeds the planned total. -/
theorem dedupe_saved_bytes_formula (fs : Fs) (db : Db) (trashDir : Path)
    (times : Nat → Nat) (now : Nat) (txId : String) (dirPath : Path)
    (options : DedupeOptions) (files : List FileEntry) (hdry : options.dryRun = false) :
    ∀ fs1 db1 tx res,
      dedupe fs db trashDir times now txId dirPath options files = (fs1, db1, tx, res) →
      res.summary.savedBytes =
        jsRound ((((res.duplicates.map (fun d => d.wastedSize)).sum : ℕ) : ℚ) *
          (((tx.actions.countP (fun a => a.status = ActionStatus.completed) : ℕ) : ℚ) /
            (if tx.actions.length = 0 then 1 else (tx.actions.length : ℚ)))) ∧
      res.summary.savedBytes ≤ (((res.duplicates.map (fun d => d.wastedSize)).sum : ℕ) : ℤ) := by
  intro fs1 db1 tx res hok
  simp only [dedupe, hdry, Bool.false_eq_true, if_false, not_false_eq_true, true_and,
    Prod.mk.injEq] at hok
  obtain ⟨-, -, htx, hres⟩ := hok
  subst htx
  subst hres
  by_cases hact : 0 <
      (dedupePlanFold trashDir options.moveToTrash options.strategy (groupByHash files)).2.1.length
  · obtain ⟨hlen, hcount, hsum⟩ := execDeleteActions_counts trashDir times options.moveToTrash
      (dedupePlanFold trashDir options.moveToTrash options.strategy (groupByHash files)).2.1
      (if options.moveToTrash = true then ensureDirectory fs trashDir else fs) 0
    simp only [if_pos hact, ← dedupePlanFold_savedBytes, ← hcount, hlen]
    refine ⟨trivial, ?_⟩
    exact jsRound_le _ _ _ (by omega)
  · simp only [if_neg hact]
    have hnil :
        (dedupePlanFold trashDir options.moveToTrash options.strategy (groupByHash files)).2.1
          = [] := by
      cases hc : (dedupePlanFold trashDir options.moveToTrash options.strategy
          (groupByHash files)).2.1 with
      | nil => rfl
      | cons a l =>
        rw [hc] at hact
        simp at hact
    have hcount0 :
        ((dedupePlanFold trashDir options.moveToTrash options.strategy
          (groupByHash files)).2.1.countP (fun a => a.status = ActionStatus.completed)) = 0 := by
      rw [hnil]
      rfl
    simp only [hcount0, ← dedupePlanFold_savedBytes]
    refine ⟨trivial, ?_⟩
    exact jsRound_le _ 0 _ (by omega)

theorem dedupe_saved_bytes_formula_witness :
    ((dedupe ⟨[(["r", "a.txt"], ⟨3, 0, 5, "h"⟩), (["r", "b.txt"], ⟨3, 0, 9, "h"⟩)], [["r"]]⟩
      [] ["trash"] (fun i => i + 100) 7 "t1" ["r"] ⟨false, DedupeStrategy.keepLatest, true⟩
      [(["r", "a.txt"], ⟨3, 0, 5, "h"⟩), (["r", "b.txt"], ⟨3, 0, 9, "h"⟩)]).2.2.2).summary.savedBytes =
      jsRound ((((((dedupe ⟨[(["r", "a.txt"], ⟨3, 0, 5, "h"⟩), (["r", "b.txt"], ⟨3, 0, 9, "h"⟩)], [["r"]]⟩
      [] ["trash"] (fun i => i + 100) 7 "t1" ["r"] ⟨false, DedupeStrategy.keepLatest, true⟩
      [(["r", "a.txt"], ⟨3, 0, 5, "h"⟩), (["r", "b.txt"], ⟨3, 0, 9, "h"⟩)]).2.2.2).duplicates.map (fun d => d.wastedSize)).sum : ℕ) : ℚ) *
        (((((dedupe ⟨[(["r", "a.txt"], ⟨3, 0, 5, "h"⟩), (["r", "b.txt"], ⟨3, 0, 9, "h"⟩)], [["r"]]⟩
      [] ["trash"] (fun i => i + 100) 7 "t1" ["r"] ⟨false, DedupeStrategy.keepLatest, true⟩
      [(["r", "a.txt"], ⟨3, 0, 5, "h"⟩), (["r", "b.txt"], ⟨3, 0, 9, "h"⟩)]).2.2.1).actions.countP
            (fun a => a.status = ActionStatus.completed) : ℕ) : ℚ) /
          (if ((dedupe ⟨[(["r", "a.txt"], ⟨3, 0, 5, "h"⟩), (["r", "b.txt"], ⟨3, 0, 9, "h"⟩)], [["r"]]⟩
      [] ["trash"] (fun i => i + 100) 7 "t1" ["r"] ⟨false, DedupeStrategy.keepLatest, true⟩
      [(["r", "a.txt"], ⟨3, 0, 5, "h"⟩), (["r", "b.txt"], ⟨3, 0, 9, "h"⟩)]).2.2.1).actions.length = 0 then 1
           else (((dedupe ⟨[(["r", "a.txt"], ⟨3, 0, 5, "h"⟩), (["r", "b.txt"], ⟨3, 0, 9, "h"⟩)], [["r"]]⟩
      [] ["trash"] (fun i => i + 100) 7 "t1" ["r"] ⟨false, DedupeStrategy.keepLatest, true⟩
      [(["r", "a.txt"], ⟨3, 0, 5, "h"⟩), (["r", "b.txt"], ⟨3, 0, 9, "h"⟩)]).2.2.1).actions.length : ℚ)))) ∧
    ((dedupe ⟨[(["r", "a.txt"], ⟨3, 0, 5, "h"⟩), (["r", "b.txt"], ⟨3, 0, 9, "h"⟩)], [["r"]]⟩
      [] ["trash"] (fun i => i + 100) 7 "t1" ["r"] ⟨false, DedupeStrategy.keepLatest, true⟩
      [(["r", "a.txt"], ⟨3, 0, 5, "h"⟩), (["r", "b.txt"], ⟨3, 0, 9, "h"⟩)]).2.2.2).summary.savedBytes ≤
      (((((dedupe ⟨[(["r", "a.txt"], ⟨3, 0, 5, "h"⟩), (["r", "b.txt"], ⟨3, 0, 9, "h"⟩)], [["r"]]⟩
      [] ["trash"] (fun i => i + 100) 7 "t1" ["r"] ⟨false, DedupeStrategy.keepLatest, true⟩
      [(["r", "a.txt"], ⟨3, 0, 5, "h"⟩), (["r", "b.txt"], ⟨3, 0, 9, "h"⟩)]).2.2.2).duplicates.map (fun d => d.wastedSize)).sum : ℕ) : ℤ) :=
  dedupe_saved_bytes_formula ⟨[(["r", "a.txt"], ⟨3, 0, 5, "h"⟩), (["r", "b.txt"], ⟨3, 0, 9, "h"⟩)], [["r"]]⟩
    [] ["trash"] (fun i => i + 100) 7 "t1" ["r"] ⟨false, DedupeStrategy.keepLatest, true⟩
    [(["r", "a.txt"], ⟨3, 0, 5, "h"⟩), (["r", "b.txt"], ⟨3, 0, 9, "h"⟩)] rfl
    (dedupe ⟨[(["r", "a.txt"], ⟨3, 0, 5, "h"⟩), (["r", "b.txt"], ⟨3, 0, 9, "h"⟩)], [["r"]]⟩
      [] ["trash"] (fun i => i + 100) 7 "t1" ["r"] ⟨false, DedupeStrategy.keepLatest, true⟩
      [(["r", "a.txt"], ⟨3, 0, 5, "h"⟩), (["r", "b.txt"], ⟨3, 0, 9, "h"⟩)]).1 (dedupe ⟨[(["r", "a.txt"], ⟨3, 0, 5, "h"⟩), (["r", "b.txt"], ⟨3, 0, 9, "h"⟩)], [["r"]]⟩
      [] ["trash"] (fun i => i + 100) 7 "t1" ["r"] ⟨false, DedupeStrategy.keepLatest, true⟩
      [(["r", "a.txt"], ⟨3, 0, 5, "h"⟩), (["r", "b.txt"], ⟨3, 0, 9, "h"⟩)]).2.1 (dedupe ⟨[(["r", "a.txt"], ⟨3, 0, 5, "h"⟩), (["r", "b.txt"], ⟨3, 0, 9, "h"⟩)], [["r"]]⟩
      [] ["trash"] (fun i => i + 100) 7 "t1" ["r"] ⟨false, DedupeStrategy.keepLatest, true⟩
      [(["r", "a.txt"], ⟨3, 0, 5, "h"⟩), (["r", "b.txt"], ⟨3, 0, 9, "h"⟩)]).2.2.1 (dedupe ⟨[(["r", "a.txt"], ⟨3, 0, 5, "h"⟩), (["r", "b.txt"], ⟨3, 0, 9, "h"⟩)], [["r"]]⟩
      [] ["trash"] (fun i => i + 100) 7 "t1" ["r"] ⟨false, DedupeStrategy.keepLatest, true⟩
      [(["r", "a.txt"], ⟨3, 0, 5, "h"⟩), (["r", "b.txt"], ⟨3, 0, 9, "h"⟩)]).2.2.2 rfl

/-! ### C2: which files the organizer plans to move -/

/-- C2 counterexample.  The claim says the only files excluded from the
plan are those already inside the subdirectory named after their own
category.  `report.pdf` (category `Documents`) sitting in
`root/Images/` is not in its own category's subdirectory, yet a
recursive organize plans nothing: the walk filter drops every file
whose parent directory carries *any* category name. -/
theorem organize_plan_misses_misplaced_file_counterexample :
    (organize ⟨[(["root", "Images", "report.pdf"], ⟨5, 0, 0, "h"⟩)], [["root"], ["root", "Images"]]⟩
      [] 0 "o1" ["root"] ⟨true, true⟩ [["root", "Images", "report.pdf"]]).2.2.2.plan = [] ∧
    categorizeFile ["root", "Images", "report.pdf"] = FileCategory.Documents ∧
    ¬ dirname ["root", "Images", "report.pdf"] =
      pathJoin ["root"] (categoryName (categorizeFile ["root", "Images", "report.pdf"])) ∧
    fsLookup ⟨[(["root", "Images", "report.pdf"], ⟨5, 0, 0, "h"⟩)], [["root"], ["root", "Images"]]⟩
      ["root", "Images", "report.pdf"] = some ⟨5, 0, 0, "h"⟩ := by
  refine ⟨rfl, by decide, by decide, rfl⟩

theorem getOrganizableFiles_mem (dirPath : Path) (recursive : Bool) (allFiles : List Path)
    (p : Path) :
    p ∈ getOrganizableFiles dirPath recursive allFiles ↔
      p ∈ allFiles ∧
      ¬ (getAllCategories.map categoryName).contains (basename (dirname p)) = true ∧
      (recursive = false → dirname p = dirPath) := by
  cases recursive with
  | true =>
    simp only [getOrganizableFiles]
    rw [if_neg (by simp)]
    simp only [List.mem_filter]
    constructor
    · rintro ⟨h1, h2⟩
      exact ⟨h1, by simpa using h2, by simp⟩
    · rintro ⟨h1, h2, -⟩
      exact ⟨h1, by simpa using h2⟩
  | false =>
    simp only [getOrganizableFiles]
    rw [if_pos (by simp)]
    simp only [List.mem_filter]
    constructor
    · rintro ⟨⟨h1, h2⟩, h3⟩
      exact ⟨h1, by simpa using h2, fun _ => by simpa using h3⟩
    · rintro ⟨h1, h2, h3⟩
      exact ⟨⟨h1, by simpa using h2⟩, by simpa using h3 trivial⟩

theorem buildOrganizePlan_mem (fs : Fs) (dirPath : Path) :
    ∀ (l : List Path) (e : OrganizePlan),
      e ∈ (buildOrganizePlan fs dirPath l).1 ↔
        ∃ p ∈ l, ∃ m, fsLookup fs p = some m ∧
          ¬ dirname p = pathJoin dirPath (categoryName (categorizeFile p)) ∧
          e = ⟨p, pathJoin (pathJoin dirPath (categoryName (categorizeFile p))) (basename p),
               categorizeFile p, basename p, m.size⟩ := by
  intro l
  induction l with
  | nil =>
    intro e
    simp [buildOrganizePlan]
  | cons p rest ih =>
    intro e
    simp only [buildOrganizePlan]
    split
    · rename_i hl
      rw [ih]
      constructor
      · rintro ⟨q, hq, m, hm, hskip, he⟩
        exact ⟨q, List.mem_cons_of_mem p hq, m, hm, hskip, he⟩
      · rintro ⟨q, hq, m, hm, hskip, he⟩
        rcases List.mem_cons.mp hq with rfl | hq2
        · rw [hl] at hm
          exact absurd hm (by simp)
        · exact ⟨q, hq2, m, hm, hskip, he⟩
    · rename_i fileInfo hl
      by_cases hskip : dirname p = pathJoin dirPath (categoryName (categorizeFile p))
      · rw [if_pos hskip, ih]
        constructor
        · rintro ⟨q, hq, m, hm, hsk, he⟩
          exact ⟨q, List.mem_cons_of_mem p hq, m, hm, hsk, he⟩
        · rintro ⟨q, hq, m, hm, hsk, he⟩
          rcases List.mem_cons.mp hq with rfl | hq2
          · exact absurd hskip hsk
          · exact ⟨q, hq2, m, hm, hsk, he⟩
      · rw [if_neg hskip]
        simp only [List.mem_cons]
        constructor
        · rintro (rfl | he2)
          · exact ⟨p, Or.inl rfl, fileInfo, hl, hskip, rfl⟩
          · obtain ⟨q, hq, m, hm, hsk, he⟩ := (ih e).mp he2
            exact ⟨q, Or.inr hq, m, hm, hsk, he⟩
        · rintro ⟨q, hq, m, hm, hsk, he⟩
          rcases hq with rfl | hq2
          · left
            rw [hl] at hm
            injection hm with hmeq
            rw [he, hmeq]
          · right
            exact (ih e).mpr ⟨q, hq2, m, hm, hsk, he⟩

/-- C2 amended.  The organizer's plan contains exactly one move per
listed, stat-able file that (a) is not directly inside **any**
category-named directory (not only its own category's — the walk filter
drops all of those), (b) in non-recursive mode sits directly in the
target directory, and (c) is not already at `<target>/<Category>/`;
each planned move sends the file to
`<target>/<Category of the file>/<its basename>`. -/
theorem organize_plan_characterization (fs : Fs) (db : Db) (now : Nat) (txId : String)
    (dirPath : Path) (options : OrganizeOptions) (allFiles : List Path) :
    (∀ e ∈ (organize fs db now txId dirPath options allFiles).2.2.2.plan,
      e.from_ ∈ allFiles ∧
      ¬ (getAllCategories.map categoryName).contains (basename (dirname e.from_)) = true ∧
      (options.recursive = false → dirname e.from_ = dirPath) ∧
      e.category = categorizeFile e.from_ ∧
      e.fileName = basename e.from_ ∧
      e.to_ =
        pathJoin (pathJoin dirPath (categoryName (categorizeFile e.from_))) (basename e.from_) ∧
      ¬ dirname e.from_ = pathJoin dirPath (categoryName (categorizeFile e.from_)) ∧
      ∃ m, fsLookup fs e.from_ = some m ∧ e.size = m.size) ∧
    (∀ p ∈ allFiles, ∀ m, fsLookup fs p = some m →
      ¬ (getAllCategories.map categoryName).contains (basename (dirname p)) = true →
      (options.recursive = false → dirname p = dirPath) →
      ¬ dirname p = pathJoin dirPath (categoryName (categorizeFile p)) →
      ∃ e ∈ (organize fs db now txId dirPath options allFiles).2.2.2.plan, e.from_ = p) := by
  have hplan : (organize fs db now txId dirPath options allFiles).2.2.2.plan =
      (buildOrganizePlan fs dirPath
        (getOrganizableFiles dirPath options.recursive allFiles)).1 := by
    simp only [organize]
  constructor
  · intro e he
    rw [hplan, buildOrganizePlan_mem] at he
    obtain ⟨p, hp, m, hm, hskip, rfl⟩ := he
    obtain ⟨h1, h2, h3⟩ := (getOrganizableFiles_mem dirPath options.recursive allFiles p).mp hp
    exact ⟨h1, h2, h3, rfl, rfl, rfl, hskip, m, hm, rfl⟩
  · intro p hp m hm hfilter hrec hskip
    refine ⟨⟨p, pathJoin (pathJoin dirPath (categoryName (categorizeFile p))) (basename p),
      categorizeFile p, basename p, m.size⟩, ?_, rfl⟩
    rw [hplan, buildOrganizePlan_mem]
    exact ⟨p, (getOrganizableFiles_mem dirPath options.recursive allFiles p).mpr
      ⟨hp, hfilter, hrec⟩, m, hm, hskip, rfl⟩

theorem organize_plan_characterization_witness :
    ∃ e ∈ (organize ⟨[(["root", "photo.jpg"], ⟨4, 0, 0, "h3"⟩)], [["root"]]⟩ [] 0 "o2"
        ["root"] ⟨true, false⟩ [["root", "photo.jpg"]]).2.2.2.plan,
      e.from_ = ["root", "photo.jpg"] :=
  (organize_plan_characterization ⟨[(["root", "photo.jpg"], ⟨4, 0, 0, "h3"⟩)], [["root"]]⟩ [] 0
      "o2" ["root"] ⟨true, false⟩ [["root", "photo.jpg"]]).2
    ["root", "photo.jpg"] (by decide) ⟨4, 0, 0, "h3"⟩ rfl (by decide) (by decide) (by decide)

/-! ### C1: helper lemmas for the dedupe/rollback round trip -/

theorem pathJoin_ne_self (dir : Path) (name : String) : ¬ dir = pathJoin dir name := by
  intro h
  have := congrArg List.length h
  simp [pathJoin] at this

theorem mem_of_mem_enumFrom {α : Type} :
    ∀ (l : List α) (i : Nat) (ia : Nat × α), ia ∈ l.enumFrom i → ia.2 ∈ l := by
  intro l
  induction l with
  | nil =>
    intro i ia h
    simp [List.enumFrom] at h
  | cons x xs ih =>
    intro i ia h
    rw [List.enumFrom_cons] at h
    rcases List.mem_cons.mp h with rfl | h2
    · exact List.mem_cons_self x xs
    · exact List.mem_cons_of_mem x (ih (i + 1) ia h2)

theorem fileExists_false_of (fs : Fs) (p : Path) (h1 : fsLookup fs p = none)
    (h2 : p ∉ fs.dirs) : fileExists fs p = false :=
  (fileExists_eq_false_iff fs p).mpr ⟨h1, h2⟩

theorem safeDelete_trash_step (fs : Fs) (trashDir : Path) (ts : Nat) (p : Path) (m : FileMeta)
    (h0 : trashDir ∈ fs.dirs) (hm : fsLookup fs p = some m)
    (hT : fileExists fs (pathJoin trashDir (toString ts ++ "_" ++ basename p)) = false) :
    safeDelete fs trashDir ts p true =
      (fsAdd (fsRemove (fsRemove fs p) (pathJoin trashDir (toString ts ++ "_" ++ basename p)))
         (pathJoin trashDir (toString ts ++ "_" ++ basename p)) m,
       ⟨true, p, true, some (pathJoin trashDir (toString ts ++ "_" ++ basename p)), none⟩) := by
  have hex : fileExists fs p = true := fileExists_of_lookup_isSome fs p (by simp [hm])
  have hens : ensureDirectory fs trashDir = fs := ensureDirectory_dirs_of_contains fs trashDir h0
  simp only [safeDelete, safeMove, hex, hens, dirname_pathJoin, hT, hm, Bool.true_eq_false,
    not_true_eq_false, if_false, and_false, if_true, ite_false, ite_true]
  simp

theorem safeDelete_no_trash_trashPath (fs : Fs) (trashDir : Path) (ts : Nat) (p : Path) :
    (safeDelete fs trashDir ts p false).2.trashPath = none := by
  unfold safeDelete
  split
  · rfl
  · rfl

theorem dedupePlanFold_actions_fields (trashDir : Path) (moveToTrash : Bool)
    (strategy : DedupeStrategy) :
    ∀ gs, ∀ a ∈ (dedupePlanFold trashDir moveToTrash strategy gs).2.1,
      a.type = ActionType.delete ∧
      a.to_ = (if moveToTrash then some (pathJoin trashDir (basename a.from_)) else none) := by
  intro gs
  induction gs with
  | nil => simp [dedupePlanFold]
  | cons g rest ih =>
    intro a ha
    simp only [dedupePlanFold] at ha
    by_cases hlen : g.2.length ≤ 1
    · rw [if_pos hlen] at ha
      exact ih a ha
    · rw [if_neg hlen] at ha
      rcases List.mem_append.mp ha with ha1 | ha2
      · obtain ⟨f, -, rfl⟩ := List.mem_map.mp ha1
        exact ⟨rfl, by cases moveToTrash <;> simp [basename_pathJoin]⟩
      · exact ih a ha2

theorem execDeleteActions_no_trash_fields (trashDir : Path) (times : Nat → Nat) :
    ∀ (acts : List TransactionAction) (fs : Fs) (i : Nat),
      (∀ a ∈ acts, a.type = ActionType.delete ∧ a.to_ = none) →
      ∀ a ∈ (execDeleteActions trashDir times false fs i acts).2.1,
        a.type = ActionType.delete ∧ a.to_ = none := by
  intro acts
  induction acts with
  | nil =>
    intro fs i h a ha
    simp [execDeleteActions] at ha
  | cons action rest ih =>
    intro fs i h a ha
    obtain ⟨hty, hto⟩ := h action (List.mem_cons_self action rest)
    simp only [execDeleteActions] at ha
    by_cases hsucc :
        (safeDelete fs trashDir (times i) action.from_ false).2.success = true
    · simp only [hsucc, eq_self_iff_true, if_true] at ha
      rcases List.mem_cons.mp ha with rfl | ha2
      · refine ⟨hty, ?_⟩
        simp only [safeDelete_no_trash_trashPath, hto]
      · exact ih _ (i + 1) (fun b hb => h b (List.mem_cons_of_mem action hb)) a ha2
    · rw [Bool.not_eq_true] at hsucc
      simp only [hsucc, Bool.false_eq_true, if_false] at ha
      rcases List.mem_cons.mp ha with rfl | ha2
      · exact ⟨hty, hto⟩
      · exact ih _ (i + 1) (fun b hb => h b (List.mem_cons_of_mem action hb)) a ha2

theorem execRollbackActions_all_skipped :
    ∀ (racts : List TransactionAction) (fs : Fs),
      (∀ a ∈ racts, a.type = ActionType.delete ∧ a.to_ = none) →
      (execRollbackActions fs racts).1 = fs ∧
      (∀ d ∈ (execRollbackActions fs racts).2.1, d.status = RbOutcome.skipped) ∧
      (execRollbackActions fs racts).2.2.2.1 = 0 ∧
      (execRollbackActions fs racts).2.2.2.2.2 = racts.length := by
  intro racts
  induction racts with
  | nil =>
    intro fs h
    simp [execRollbackActions]
  | cons a rest ih =>
    intro fs h
    obtain ⟨hty, hto⟩ := h a (List.mem_cons_self a rest)
    have hstep : rollbackActionStep fs a =
        (fs, RbOutcome.skipped, some "File was permanently deleted or trash file not found") := by
      simp only [rollbackActionStep, hty, rollbackDelete, hto]
    obtain ⟨ih1, ih2, ih3, ih4⟩ := ih fs (fun b hb => h b (List.mem_cons_of_mem a hb))
    simp only [execRollbackActions, hstep]
    refine ⟨ih1, ?_, by simpa using ih3, by simpa using ih4⟩
    intro d hd
    rcases List.mem_cons.mp hd with rfl | hd2
    · rfl
    · exact ih2 d hd2

theorem execTrash (trashDir : Path) (times : Nat → Nat) :
    ∀ (acts : List TransactionAction) (fs : Fs) (i : Nat),
      trashDir ∈ fs.dirs →
      (∀ a ∈ acts, (fsLookup fs a.from_).isSome = true) →
      ((acts.map (fun a => a.from_)).Nodup) →
      (∀ ia ∈ acts.enumFrom i, fileExists fs (trashPathOf trashDir times ia.1 ia.2) = false) →
      (((acts.enumFrom i).map (fun ia => trashPathOf trashDir times ia.1 ia.2)).Nodup) →
      (execDeleteActions trashDir times true fs i acts).2.1 = attachTrash trashDir times i acts ∧
      (execDeleteActions trashDir times true fs i acts).2.2.1 = acts.length ∧
      (execDeleteActions trashDir times true fs i acts).2.2.2 = 0 ∧
      (execDeleteActions trashDir times true fs i acts).1.dirs = fs.dirs ∧
      (∀ ia ∈ acts.enumFrom i,
        fsLookup (execDeleteActions trashDir times true fs i acts).1
          (trashPathOf trashDir times ia.1 ia.2) = fsLookup fs ia.2.from_) ∧
      (∀ a ∈ acts, fsLookup (execDeleteActions trashDir times true fs i acts).1 a.from_ = none) ∧
      (∀ q : Path, (∀ a ∈ acts, ¬ q = a.from_) →
        (∀ ia ∈ acts.enumFrom i, ¬ q = trashPathOf trashDir times ia.1 ia.2) →
        fsLookup (execDeleteActions trashDir times true fs i acts).1 q = fsLookup fs q) := by
  intro acts
  induction acts with
  | nil =>
    intro fs i h0 h1 h2 h3 h4
    refine ⟨rfl, rfl, rfl, rfl, ?_, ?_, ?_⟩
    · intro ia hia
      simp [List.enumFrom] at hia
    · intro a ha
      simp at ha
    · intro q hq1 hq2
      rfl
  | cons a rest ih =>
    intro fs i h0 h1 h2 h3 h4
    have henum : (a :: rest).enumFrom i = (i, a) :: rest.enumFrom (i + 1) :=
      List.enumFrom_cons ..
    obtain ⟨m, hm⟩ := Option.isSome_iff_exists.mp (h1 a (List.mem_cons_self a rest))
    have hT : fileExists fs (trashPathOf trashDir times i a) = false := by
      refine h3 (i, a) ?_
      rw [henum]
      exact List.mem_cons_self _ _
    have hstep := safeDelete_trash_step fs trashDir (times i) a.from_ m h0 hm hT
    rw [henum, List.map_cons] at h4
    obtain ⟨h4head, h4tail⟩ := List.nodup_cons.mp h4
    rw [List.map_cons] at h2
    obtain ⟨h2head, h2tail⟩ := List.nodup_cons.mp h2
    have hTneqf : ∀ b ∈ a :: rest, ¬ trashPathOf trashDir times i a = b.from_ := by
      intro b hb heq
      have hbex : fileExists fs b.from_ = true := fileExists_of_lookup_isSome _ _ (h1 b hb)
      rw [← heq, hT] at hbex
      exact Bool.false_ne_true hbex
    have hafneq : ∀ b ∈ rest, ¬ a.from_ = b.from_ := by
      intro b hb heq
      exact h2head (heq ▸ List.mem_map_of_mem (fun x => x.from_) hb)
    have hTneqtp : ∀ ib ∈ rest.enumFrom (i + 1),
        ¬ trashPathOf trashDir times i a = trashPathOf trashDir times ib.1 ib.2 := by
      intro ib hib heq
      exact h4head (heq ▸ List.mem_map_of_mem _ hib)
    have hfneqtp : ∀ b ∈ a :: rest, ∀ ib ∈ rest.enumFrom (i + 1),
        ¬ b.from_ = trashPathOf trashDir times ib.1 ib.2 := by
      intro b hb ib hib heq
      have hbex : fileExists fs b.from_ = true := fileExists_of_lookup_isSome _ _ (h1 b hb)
      have hibex : fileExists fs (trashPathOf trashDir times ib.1 ib.2) = false := by
        refine h3 ib ?_
        rw [henum]
        exact List.mem_cons_of_mem _ hib
      rw [heq, hibex] at hbex
      exact Bool.false_ne_true hbex
    have hlookupN : ∀ q,
        fsLookup (fsAdd (fsRemove (fsRemove fs a.from_) (trashPathOf trashDir times i a))
            (trashPathOf trashDir times i a) m) q =
          if trashPathOf trashDir times i a = q then some m
          else if a.from_ = q then none else fsLookup fs q := by
      intro q
      by_cases hTq : trashPathOf trashDir times i a = q
      · simp [fsLookup_fsAdd, hTq]
      · simp [fsLookup_fsAdd, fsLookup_fsRemove, hTq]
    have hdirsN : (fsAdd (fsRemove (fsRemove fs a.from_) (trashPathOf trashDir times i a))
        (trashPathOf trashDir times i a) m).dirs = fs.dirs := rfl
    have h1N : ∀ b ∈ rest,
        (fsLookup (fsAdd (fsRemove (fsRemove fs a.from_) (trashPathOf trashDir times i a))
          (trashPathOf trashDir times i a) m) b.from_).isSome = true := by
      intro b hb
      rw [hlookupN, if_neg (hTneqf b (List.mem_cons_of_mem a hb)),
        if_neg (hafneq b hb)]
      exact h1 b (List.mem_cons_of_mem a hb)
    have h3N : ∀ ib ∈ rest.enumFrom (i + 1),
        fileExists (fsAdd (fsRemove (fsRemove fs a.from_) (trashPathOf trashDir times i a))
          (trashPathOf trashDir times i a) m) (trashPathOf trashDir times ib.1 ib.2) = false := by
      intro ib hib
      have horig : fileExists fs (trashPathOf trashDir times ib.1 ib.2) = false := by
        refine h3 ib ?_
        rw [henum]
        exact List.mem_cons_of_mem _ hib
      obtain ⟨hlk, hdir⟩ := (fileExists_eq_false_iff fs _).mp horig
      refine fileExists_false_of _ _ ?_ (by rw [hdirsN]; exact hdir)
      rw [hlookupN, if_neg (hTneqtp ib hib)]
      by_cases haf : a.from_ = trashPathOf trashDir times ib.1 ib.2
      · rw [if_pos haf]
      · rw [if_neg haf]
        exact hlk
    obtain ⟨c1, c2, c3, c4, c5, c6, c7⟩ :=
      ih (fsAdd (fsRemove (fsRemove fs a.from_) (trashPathOf trashDir times i a))
        (trashPathOf trashDir times i a) m) (i + 1) (by rw [hdirsN]; exact h0) h1N h2tail h3N
        h4tail
    rw [show pathJoin trashDir (toString (times i) ++ "_" ++ basename a.from_) =
        trashPathOf trashDir times i a from rfl] at hstep
    refine ⟨?_, ?_, ?_, ?_, ?_, ?_, ?_⟩
    · simp only [execDeleteActions, hstep, eq_self_iff_true, if_true, attachTrash]
      rw [c1]
    · simp only [execDeleteActions, hstep, eq_self_iff_true, if_true, List.length_cons]
      rw [c2]
    · simp only [execDeleteActions, hstep, eq_self_iff_true, if_true]
      exact c3
    · simp only [execDeleteActions, hstep, eq_self_iff_true, if_true]
      rw [c4]
      exact hdirsN
    · intro ia hia
      rw [henum] at hia
      rcases List.mem_cons.mp hia with rfl | hia2
      · simp only [execDeleteActions, hstep, eq_self_iff_true, if_true]
        rw [c7 (trashPathOf trashDir times i a)
            (fun b hb => hTneqf b (List.mem_cons_of_mem a hb)) hTneqtp,
          hlookupN, if_pos rfl, hm]
      · simp only [execDeleteActions, hstep, eq_self_iff_true, if_true]
        rw [c5 ia hia2, hlookupN,
          if_neg (hTneqf ia.2
            (List.mem_cons_of_mem a (mem_of_mem_enumFrom rest (i + 1) ia hia2))),
          if_neg (hafneq ia.2 (mem_of_mem_enumFrom rest (i + 1) ia hia2))]
    · intro b hb
      rcases List.mem_cons.mp hb with rfl | hb2
      · simp only [execDeleteActions, hstep, eq_self_iff_true, if_true]
        rw [c7 b.from_ (fun c hc => hafneq c hc)
            (fun ib hib => hfneqtp b (List.mem_cons_self b rest) ib hib),
          hlookupN, if_neg (hTneqf b (List.mem_cons_self b rest)), if_pos rfl]
      · simp only [execDeleteActions, hstep, eq_self_iff_true, if_true]
        exact c6 b hb2
    · intro q hq1 hq2
      simp only [execDeleteActions, hstep, eq_self_iff_true, if_true]
      rw [c7 q (fun b hb => hq1 b (List.mem_cons_of_mem a hb))
          (fun ib hib => hq2 ib (by rw [henum]; exact List.mem_cons_of_mem _ hib)),
        hlookupN,
        if_neg (fun heq => (hq2 (i, a) (by rw [henum]; exact List.mem_cons_self _ _)) heq.symm),
        if_neg (fun heq => (hq1 a (List.mem_cons_self a rest)) heq.symm)]

theorem rollbackDelete_restore_step (fs : Fs) (a : TransactionAction) (t : Path) (m : FileMeta)
    (ht : a.to_ = some t) (hm : fsLookup fs t = some m)
    (hlk : fsLookup fs a.from_ = none) (hd1 : a.from_ ∉ fs.dirs)
    (hd2 : ¬ a.from_ = dirname a.from_) :
    rollbackDelete fs a =
      (fsAdd (fsRemove (fsRemove (ensureDirectory fs (dirname a.from_)) t) a.from_) a.from_ m,
       RbOutcome.restored, none) := by
  have hex_t : fileExists fs t = true := fileExists_of_lookup_isSome fs t (by simp [hm])
  have hens_files : fsLookup (ensureDirectory fs (dirname a.from_)) t = some m := by
    rw [fsLookup_ensureDirectory]
    exact hm
  have hex_t1 : fileExists (ensureDirectory fs (dirname a.from_)) t = true :=
    fileExists_of_lookup_isSome _ _ (by simp [hens_files])
  have hfrom1 : fileExists (ensureDirectory fs (dirname a.from_)) a.from_ = false := by
    refine fileExists_false_of _ _ ?_ ?_
    · rw [fsLookup_ensureDirectory]
      exact hlk
    · intro hmem
      rcases (mem_ensureDirectory_dirs fs (dirname a.from_) a.from_).mp hmem with heq | hmem2
      · exact hd2 heq
      · exact hd1 hmem2
  have hens2 : ensureDirectory (ensureDirectory fs (dirname a.from_)) (dirname a.from_) =
      ensureDirectory fs (dirname a.from_) :=
    ensureDirectory_dirs_of_contains _ _
      ((mem_ensureDirectory_dirs fs (dirname a.from_) (dirname a.from_)).mpr (Or.inl rfl))
  simp only [rollbackDelete, ht, hex_t, safeMove, hex_t1, hens2, hfrom1, hens_files,
    dirname_pathJoin, Bool.true_eq_false, not_true_eq_false, if_false, and_false, if_true,
    ite_false, ite_true]
  simp

theorem execRestore :
    ∀ (racts : List TransactionAction) (gs : Fs),
      (∀ a ∈ racts, a.type = ActionType.delete) →
      (∀ a ∈ racts, ∃ t m, a.to_ = some t ∧ fsLookup gs t = some m) →
      (∀ a ∈ racts, fsLookup gs a.from_ = none ∧ a.from_ ∉ gs.dirs) →
      ((racts.map (fun a => a.from_)).Nodup) →
      ((racts.filterMap (fun a => a.to_)).Nodup) →
      (∀ a ∈ racts, ∀ b ∈ racts, ∀ t, b.to_ = some t → ¬ a.from_ = t) →
      (∀ a ∈ racts, ∀ b ∈ racts, ¬ a.from_ = dirname b.from_) →
      (execRollbackActions gs racts).2.1 =
        racts.map (fun a =>
          (⟨a.to_.getD a.from_, a.from_, RbOutcome.restored, none⟩ : RollbackDetail)) ∧
      (execRollbackActions gs racts).2.2.2.1 = racts.length ∧
      (execRollbackActions gs racts).2.2.2.2.1 = 0 ∧
      (execRollbackActions gs racts).2.2.2.2.2 = 0 ∧
      (∀ a ∈ racts, ∀ t, a.to_ = some t →
        fsLookup (execRollbackActions gs racts).1 a.from_ = fsLookup gs t ∧
        fsLookup (execRollbackActions gs racts).1 t = none) ∧
      (∀ q : Path, (∀ a ∈ racts, ¬ q = a.from_) →
        (∀ a ∈ racts, ∀ t, a.to_ = some t → ¬ q = t) →
        fsLookup (execRollbackActions gs racts).1 q = fsLookup gs q) := by
  intro racts
  induction racts with
  | nil =>
    intro gs g1 g2 g3 g4 g5 g6 g7
    refine ⟨rfl, rfl, rfl, rfl, ?_, ?_⟩
    · intro a ha
      simp at ha
    · intro q hq1 hq2
      rfl
  | cons a rest ih =>
    intro gs g1 g2 g3 g4 g5 g6 g7
    have hty := g1 a (List.mem_cons_self a rest)
    obtain ⟨t, m, ht, hm⟩ := g2 a (List.mem_cons_self a rest)
    obtain ⟨hlk, hdirs⟩ := g3 a (List.mem_cons_self a rest)
    have hd2 : ¬ a.from_ = dirname a.from_ :=
      g7 a (List.mem_cons_self a rest) a (List.mem_cons_self a rest)
    have hstep0 : rollbackActionStep gs a = rollbackDelete gs a := by
      simp only [rollbackActionStep, hty]
    have hstep := rollbackDelete_restore_step gs a t m ht hm hlk hdirs hd2
    rw [List.map_cons] at g4
    obtain ⟨g4head, g4tail⟩ := List.nodup_cons.mp g4
    rw [List.filterMap_cons, ht] at g5
    obtain ⟨g5head, g5tail⟩ := List.nodup_cons.mp g5
    have haf_ne : ∀ b ∈ rest, ¬ a.from_ = b.from_ := by
      intro b hb heq
      exact g4head (heq ▸ List.mem_map_of_mem (fun x => x.from_) hb)
    have ht_ne : ∀ b ∈ rest, ∀ u, b.to_ = some u → ¬ t = u := by
      intro b hb u hu heq
      exact g5head (heq ▸ List.mem_filterMap.mpr ⟨b, hb, hu⟩)
    have hlookupN : ∀ q,
        fsLookup (fsAdd (fsRemove (fsRemove (ensureDirectory gs (dirname a.from_)) t)
            a.from_) a.from_ m) q =
          if a.from_ = q then some m else if t = q then none else fsLookup gs q := by
      intro q
      by_cases haq : a.from_ = q
      · simp [fsLookup_fsAdd, haq]
      · simp [fsLookup_fsAdd, fsLookup_fsRemove, fsLookup_ensureDirectory, haq]
    have hdirsN_mem : ∀ p,
        p ∈ (fsAdd (fsRemove (fsRemove (ensureDirectory gs (dirname a.from_)) t)
          a.from_) a.from_ m).dirs ↔ p = dirname a.from_ ∨ p ∈ gs.dirs := by
      intro p
      exact mem_ensureDirectory_dirs gs (dirname a.from_) p
    have g2N : ∀ b ∈ rest, ∃ u mu, b.to_ = some u ∧
        fsLookup (fsAdd (fsRemove (fsRemove (ensureDirectory gs (dirname a.from_)) t)
          a.from_) a.from_ m) u = some mu := by
      intro b hb
      obtain ⟨u, mu, hu, hmu⟩ := g2 b (List.mem_cons_of_mem a hb)
      refine ⟨u, mu, hu, ?_⟩
      rw [hlookupN,
        if_neg (g6 a (List.mem_cons_self a rest) b (List.mem_cons_of_mem a hb) u hu),
        if_neg (ht_ne b hb u hu)]
      exact hmu
    have g3N : ∀ b ∈ rest,
        fsLookup (fsAdd (fsRemove (fsRemove (ensureDirectory gs (dirname a.from_)) t)
          a.from_) a.from_ m) b.from_ = none ∧
        b.from_ ∉ (fsAdd (fsRemove (fsRemove (ensureDirectory gs (dirname a.from_)) t)
          a.from_) a.from_ m).dirs := by
      intro b hb
      obtain ⟨hlkb, hdirb⟩ := g3 b (List.mem_cons_of_mem a hb)
      constructor
      · rw [hlookupN, if_neg (haf_ne b hb)]
        by_cases htb : t = b.from_
        · rw [if_pos htb]
        · rw [if_neg htb]
          exact hlkb
      · rw [hdirsN_mem]
        rintro (heq | hmem)
        · exact g7 b (List.mem_cons_of_mem a hb) a (List.mem_cons_self a rest) heq
        · exact hdirb hmem
    obtain ⟨c1, c2, c3, c4, c5, c6⟩ :=
      ih (fsAdd (fsRemove (fsRemove (ensureDirectory gs (dirname a.from_)) t)
          a.from_) a.from_ m)
        (fun b hb => g1 b (List.mem_cons_of_mem a hb)) g2N g3N g4tail g5tail
        (fun b hb c hc u hu =>
          g6 b (List.mem_cons_of_mem a hb) c (List.mem_cons_of_mem a hc) u hu)
        (fun b hb c hc => g7 b (List.mem_cons_of_mem a hb) c (List.mem_cons_of_mem a hc))
    refine ⟨?_, ?_, ?_, ?_, ?_, ?_⟩
    · simp only [execRollbackActions, hstep0, hstep, List.map_cons]
      rw [c1]
    · simp only [execRollbackActions, hstep0, hstep, List.length_cons]
      rw [c2]
    · simp only [execRollbackActions, hstep0, hstep]
      exact c3
    · simp only [execRollbackActions, hstep0, hstep]
      exact c4
    · intro b hb u hu
      rcases List.mem_cons.mp hb with rfl | hb2
      · rw [ht] at hu
        injection hu with hu
        subst hu
      
        constructor
        · simp only [execRollbackActions, hstep0, hstep]
          rw [c6 b.from_ (fun c hc => haf_ne c hc)
              (fun c hc u2 hu2 => g6 b (List.mem_cons_self b rest) c
                (List.mem_cons_of_mem b hc) u2 hu2),
            hlookupN, if_pos rfl, hm]
        · simp only [execRollbackActions, hstep0, hstep]
          rw [c6 t (fun c hc heq =>
                g6 c (List.mem_cons_of_mem b hc) b (List.mem_cons_self b rest) t ht heq.symm)
              (fun c hc u2 hu2 => ht_ne c hc u2 hu2),
            hlookupN,
            if_neg (g6 b (List.mem_cons_self b rest) b (List.mem_cons_self b rest) t ht),
            if_pos rfl]
      · obtain ⟨e1, e2⟩ := c5 b hb2 u hu
        constructor
        · simp only [execRollbackActions, hstep0, hstep]
          rw [e1, hlookupN,
            if_neg (g6 a (List.mem_cons_self a rest) b (List.mem_cons_of_mem a hb2) u hu),
            if_neg (ht_ne b hb2 u hu)]
        · simp only [execRollbackActions, hstep0, hstep]
          exact e2
    · intro q hq1 hq2
      simp only [execRollbackActions, hstep0, hstep]
      rw [c6 q (fun b hb => hq1 b (List.mem_cons_of_mem a hb))
          (fun b hb u hu => hq2 b (List.mem_cons_of_mem a hb) u hu),
        hlookupN,
        if_neg (fun heq => (hq1 a (List.mem_cons_self a rest)) heq.symm),
        if_neg (fun heq => (hq2 a (List.mem_cons_self a rest) t ht) heq.symm)]

theorem attachTrash_map_from (trashDir : Path) (times : Nat → Nat) :
    ∀ (acts : List TransactionAction) (i : Nat),
      (attachTrash trashDir times i acts).map (fun a => a.from_) =
        acts.map (fun a => a.from_) := by
  intro acts
  induction acts with
  | nil => intro i; rfl
  | cons a rest ih =>
    intro i
    simp only [attachTrash, List.map_cons]
    rw [ih]

theorem attachTrash_filterMap_to (trashDir : Path) (times : Nat → Nat) :
    ∀ (acts : List TransactionAction) (i : Nat),
      (attachTrash trashDir times i acts).filterMap (fun a => a.to_) =
        (acts.enumFrom i).map (fun ia => trashPathOf trashDir times ia.1 ia.2) := by
  intro acts
  induction acts with
  | nil => intro i; rfl
  | cons a rest ih =>
    intro i
    rw [List.enumFrom_cons]
    simp only [attachTrash, List.filterMap_cons, List.map_cons]
    rw [ih]

theorem attachTrash_length (trashDir : Path) (times : Nat → Nat) :
    ∀ (acts : List TransactionAction) (i : Nat),
      (attachTrash trashDir times i acts).length = acts.length := by
  intro acts
  induction acts with
  | nil => intro i; rfl
  | cons a rest ih =>
    intro i
    simp only [attachTrash, List.length_cons]
    rw [ih]

theorem attachTrash_mem (trashDir : Path) (times : Nat → Nat) :
    ∀ (acts : List TransactionAction) (i : Nat) (x : TransactionAction),
      x ∈ attachTrash trashDir times i acts ↔
        ∃ ia ∈ acts.enumFrom i,
          x = { ia.2 with
                status := ActionStatus.completed,
                to_ := some (trashPathOf trashDir times ia.1 ia.2) } := by
  intro acts
  induction acts with
  | nil =>
    intro i x
    simp [attachTrash, List.enumFrom]
  | cons a rest ih =>
    intro i x
    rw [List.enumFrom_cons]
    simp only [attachTrash, List.mem_cons]
    constructor
    · rintro (rfl | hx2)
      · exact ⟨(i, a), Or.inl rfl, rfl⟩
      · obtain ⟨ia, hia, rfl⟩ := (ih (i + 1) x).mp hx2
        exact ⟨ia, Or.inr hia, rfl⟩
    · rintro ⟨ia, hia, rfl⟩
      rcases hia with rfl | hia2
      · left
        rfl
      · right
        exact (ih (i + 1) _).mpr ⟨ia, hia2, rfl⟩

theorem attachTrash_status (trashDir : Path) (times : Nat → Nat)
    (acts : List TransactionAction) (i : Nat) :
    ∀ x ∈ attachTrash trashDir times i acts, x.status = ActionStatus.completed := by
  intro x hx
  obtain ⟨ia, -, rfl⟩ := (attachTrash_mem trashDir times acts i x).mp hx
  rfl

theorem ite_status_ne_rolled_back (c : Prop) [Decidable c] :
    ¬ (if c then TxStatus.completed else TxStatus.partially_completed) =
      TxStatus.rolled_back := by
  split
  · exact fun h => TxStatus.noConfusion h
  · exact fun h => TxStatus.noConfusion h

theorem rollback_restores_all (fs1 : Fs) (db1 : Db) (now2 : Nat) (rbId txId : String)
    (txV : Transaction)
    (hfind : dbFind db1 txId = some txV)
    (hs : ¬ txV.status = TxStatus.rolled_back)
    (hd : txV.dryRun = false)
    (hall : ∀ a ∈ txV.actions, a.status = ActionStatus.completed)
    (g1 : ∀ a ∈ txV.actions, a.type = ActionType.delete)
    (g2 : ∀ a ∈ txV.actions, ∃ t m, a.to_ = some t ∧ fsLookup fs1 t = some m)
    (g3 : ∀ a ∈ txV.actions, fsLookup fs1 a.from_ = none ∧ a.from_ ∉ fs1.dirs)
    (g4 : (txV.actions.map (fun a => a.from_)).Nodup)
    (g5 : (txV.actions.filterMap (fun a => a.to_)).Nodup)
    (g6 : ∀ a ∈ txV.actions, ∀ b ∈ txV.actions, ∀ t, b.to_ = some t → ¬ a.from_ = t)
    (g7 : ∀ a ∈ txV.actions, ∀ b ∈ txV.actions, ¬ a.from_ = dirname b.from_) :
    ∃ rres, (rollback fs1 db1 now2 rbId txId).2.2 = Except.ok rres ∧
      rres.summary.totalActions = txV.actions.length ∧
      rres.summary.restoredCount = txV.actions.length ∧
      rres.summary.failedCount = 0 ∧
      rres.summary.skippedCount = 0 ∧
      ∀ a ∈ txV.actions, ∀ t, a.to_ = some t →
        fsLookup (rollback fs1 db1 now2 rbId txId).1 a.from_ = fsLookup fs1 t ∧
        fsLookup (rollback fs1 db1 now2 rbId txId).1 t = none := by
  have hfilter : txV.actions.filter (fun a => a.status = ActionStatus.completed) =
      txV.actions :=
    List.filter_eq_self.mpr (fun a ha => by simp [hall a ha])
  obtain ⟨r1, r2, r3, r4, r5, r6⟩ := execRestore txV.actions.reverse fs1
    (fun a ha => g1 a (List.mem_reverse.mp ha))
    (fun a ha => g2 a (List.mem_reverse.mp ha))
    (fun a ha => g3 a (List.mem_reverse.mp ha))
    (by rw [List.map_reverse]; exact List.nodup_reverse.mpr g4)
    (by rw [List.filterMap_reverse]; exact List.nodup_reverse.mpr g5)
    (fun a ha b hb => g6 a (List.mem_reverse.mp ha) b (List.mem_reverse.mp hb))
    (fun a ha b hb => g7 a (List.mem_reverse.mp ha) b (List.mem_reverse.mp hb))
  have hdne : ¬ txV.dryRun = true := by
    rw [hd]
    exact Bool.false_ne_true
  simp only [rollback, hfind, if_neg hs, if_neg hdne, hfilter]
  refine ⟨_, rfl, ?_, ?_, ?_, ?_, ?_⟩
  · exact List.length_reverse txV.actions
  · exact r2.trans (List.length_reverse txV.actions)
  · exact r3
  · exact r4
  · intro a ha t ht
    exact r5 a (List.mem_reverse.mpr ha) t ht

theorem rollback_skips_all_none (fs1 : Fs) (db1 : Db) (now2 : Nat) (rbId txId : String)
    (txV : Transaction)
    (hfind : dbFind db1 txId = some txV)
    (hs : ¬ txV.status = TxStatus.rolled_back)
    (hd : txV.dryRun = false)
    (hfields : ∀ a ∈ txV.actions, a.type = ActionType.delete ∧ a.to_ = none) :
    ∃ rres, (rollback fs1 db1 now2 rbId txId).2.2 = Except.ok rres ∧
      (rollback fs1 db1 now2 rbId txId).1 = fs1 ∧
      rres.summary.restoredCount = 0 ∧
      rres.summary.skippedCount = rres.summary.totalActions ∧
      ∀ d ∈ rres.details, d.status = RbOutcome.skipped := by
  have hall : ∀ a ∈ (txV.actions.filter
      (fun a => a.status = ActionStatus.completed)).reverse,
      a.type = ActionType.delete ∧ a.to_ = none :=
    fun a ha => hfields a (List.mem_of_mem_filter (List.mem_reverse.mp ha))
  obtain ⟨k1, k2, k3, k4⟩ := execRollbackActions_all_skipped
    ((txV.actions.filter (fun a => a.status = ActionStatus.completed)).reverse) fs1 hall
  have hdne : ¬ txV.dryRun = true := by
    rw [hd]
    exact Bool.false_ne_true
  simp only [rollback, hfind, if_neg hs, if_neg hdne]
  refine ⟨_, rfl, ?_, ?_, ?_, ?_⟩
  · exact k1
  · exact k3
  · exact k4
  · exact k2

/-- C1.  Dedupe/rollback round trip.  Part one: after a non-dry-run
dedupe with trash enabled — on a plan whose transaction identifier is
fresh, whose doomed source files all exist, are pairwise distinct, are
not directories, are not the trash directory and are not parents of one
another, and whose timestamped trash destinations are fresh and
pairwise distinct — rolling back the recorded transaction succeeds and
restores every deleted file from its recorded trash path back to its
original path: every action is `completed` with a recorded trash path,
the original path again resolves to its pre-dedupe content, and the
trash copy is gone.  Part two: after a dedupe with trash disabled,
rolling back succeeds but reports every processed action as `skipped`,
never `restored` (restored count 0), and restores no file (the
filesystem is returned unchanged). -/
theorem dedupe_rollback_round_trip (fs : Fs) (db : Db) (trashDir : Path)
    (times : Nat → Nat) (now1 now2 : Nat) (txId rbId : String) (dirPath : Path)
    (optA optB : DedupeOptions) (files : List FileEntry)
    (hfresh : dbFind db txId = none)
    (hdryA : optA.dryRun = false) (htrA : optA.moveToTrash = true)
    (hdryB : optB.dryRun = false) (htrB : optB.moveToTrash = false) :
    ((0 < (dedupePlanFold trashDir true optA.strategy (groupByHash files)).2.1.length) →
     (∀ a ∈ (dedupePlanFold trashDir true optA.strategy (groupByHash files)).2.1,
        (fsLookup fs a.from_).isSome = true) →
     (((dedupePlanFold trashDir true optA.strategy (groupByHash files)).2.1.map
        (fun a => a.from_)).Nodup) →
     (∀ ia ∈ ((dedupePlanFold trashDir true optA.strategy (groupByHash files)).2.1.enumFrom 0),
        fileExists fs (trashPathOf trashDir times ia.1 ia.2) = false) →
     ((((dedupePlanFold trashDir true optA.strategy (groupByHash files)).2.1.enumFrom 0).map
        (fun ia => trashPathOf trashDir times ia.1 ia.2)).Nodup) →
     (∀ a ∈ (dedupePlanFold trashDir true optA.strategy (groupByHash files)).2.1,
        a.from_ ∉ fs.dirs ∧ ¬ a.from_ = trashDir) →
     (∀ a ∈ (dedupePlanFold trashDir true optA.strategy (groupByHash files)).2.1,
        ∀ b ∈ (dedupePlanFold trashDir true optA.strategy (groupByHash files)).2.1,
        ¬ a.from_ = dirname b.from_) →
     ∀ fs1 db1 tx res,
       dedupe fs db trashDir times now1 txId dirPath optA files = (fs1, db1, tx, res) →
       ∃ rres, (rollback fs1 db1 now2 rbId txId).2.2 = Except.ok rres ∧
         rres.summary.totalActions = tx.actions.length ∧
         rres.summary.restoredCount = tx.actions.length ∧
         rres.summary.failedCount = 0 ∧
         rres.summary.skippedCount = 0 ∧
         ∀ a ∈ tx.actions, a.status = ActionStatus.completed ∧
           ∃ t, a.to_ = some t ∧
             (fsLookup fs a.from_).isSome = true ∧
             fsLookup (rollback fs1 db1 now2 rbId txId).1 a.from_ = fsLookup fs a.from_ ∧
             fsLookup (rollback fs1 db1 now2 rbId txId).1 t = none) ∧
    (∀ fs1 db1 tx res,
       dedupe fs db trashDir times now1 txId dirPath optB files = (fs1, db1, tx, res) →
       ∃ rres, (rollback fs1 db1 now2 rbId txId).2.2 = Except.ok rres ∧
         (rollback fs1 db1 now2 rbId txId).1 = fs1 ∧
         rres.summary.restoredCount = 0 ∧
         rres.summary.skippedCount = rres.summary.totalActions ∧
         ∀ d ∈ rres.details, d.status = RbOutcome.skipped) := by
  constructor
  · intro H1 H2 H3 H4 H5 H6 H8 fs1 db1 tx res hok
    simp only [dedupe, hdryA, htrA, Bool.false_eq_true, if_false, not_false_eq_true,
      true_and, eq_self_iff_true, if_true, if_pos H1, Prod.mk.injEq] at hok
    obtain ⟨hfs1, hdb1, htx, -⟩ := hok
    have htxId : tx.transactionId = txId := (congrArg Transaction.transactionId htx).symm
    have htxDry : tx.dryRun = false := (congrArg Transaction.dryRun htx).symm
    have htxActions : tx.actions =
        (execDeleteActions trashDir times true (ensureDirectory fs trashDir) 0
          (dedupePlanFold trashDir true optA.strategy (groupByHash files)).2.1).2.1 :=
      (congrArg Transaction.actions htx).symm
    have hs : ¬ tx.status = TxStatus.rolled_back := by
      have h : tx.status =
          (if (execDeleteActions trashDir times true (ensureDirectory fs trashDir) 0
              (dedupePlanFold trashDir true optA.strategy (groupByHash files)).2.1).2.2.2 = 0
           then TxStatus.completed else TxStatus.partially_completed) :=
        (congrArg Transaction.status htx).symm
      rw [h]
      exact ite_status_ne_rolled_back _
    have hEnsDirs : trashDir ∈ (ensureDirectory fs trashDir).dirs :=
      (mem_ensureDirectory_dirs fs trashDir trashDir).mpr (Or.inl rfl)
    have H2E : ∀ a ∈ (dedupePlanFold trashDir true optA.strategy (groupByHash files)).2.1,
        (fsLookup (ensureDirectory fs trashDir) a.from_).isSome = true := by
      intro a ha
      rw [fsLookup_ensureDirectory]
      exact H2 a ha
    have H4E : ∀ ia ∈ ((dedupePlanFold trashDir true optA.strategy
          (groupByHash files)).2.1.enumFrom 0),
        fileExists (ensureDirectory fs trashDir)
          (trashPathOf trashDir times ia.1 ia.2) = false := by
      intro ia hia
      obtain ⟨hlk, hdir⟩ := (fileExists_eq_false_iff fs _).mp (H4 ia hia)
      refine fileExists_false_of _ _ ?_ ?_
      · rw [fsLookup_ensureDirectory]
        exact hlk
      · intro hmem
        rcases (mem_ensureDirectory_dirs fs trashDir _).mp hmem with heq | hmem2
        · exact pathJoin_ne_self trashDir
            (toString (times ia.1) ++ "_" ++ basename ia.2.from_) heq.symm
        · exact hdir hmem2
    obtain ⟨c1, c2, c3, c4, c5, c6, c7⟩ := execTrash trashDir times
      (dedupePlanFold trashDir true optA.strategy (groupByHash files)).2.1
      (ensureDirectory fs trashDir) 0 hEnsDirs H2E H3 H4E H5
    rw [hfs1] at c4 c5 c6
    rw [c1] at htxActions
    have hall : ∀ a ∈ tx.actions, a.status = ActionStatus.completed :=
      fun a ha => attachTrash_status trashDir times _ 0 a (htxActions ▸ ha)
    have g1 : ∀ a ∈ tx.actions, a.type = ActionType.delete := by
      intro a ha
      obtain ⟨ia, hia, rfl⟩ := (attachTrash_mem trashDir times _ 0 a).mp (htxActions ▸ ha)
      exact (dedupePlanFold_actions_fields trashDir true optA.strategy (groupByHash files)
        ia.2 (mem_of_mem_enumFrom _ 0 ia hia)).1
    have g2 : ∀ a ∈ tx.actions, ∃ t m, a.to_ = some t ∧ fsLookup fs1 t = some m := by
      intro a ha
      obtain ⟨ia, hia, rfl⟩ := (attachTrash_mem trashDir times _ 0 a).mp (htxActions ▸ ha)
      have h5 := c5 ia hia
      rw [fsLookup_ensureDirectory] at h5
      obtain ⟨m, hm⟩ := Option.isSome_iff_exists.mp (H2 ia.2 (mem_of_mem_enumFrom _ 0 ia hia))
      exact ⟨trashPathOf trashDir times ia.1 ia.2, m, rfl, by rw [h5, hm]⟩
    have g3 : ∀ a ∈ tx.actions, fsLookup fs1 a.from_ = none ∧ a.from_ ∉ fs1.dirs := by
      intro a ha
      obtain ⟨ia, hia, rfl⟩ := (attachTrash_mem trashDir times _ 0 a).mp (htxActions ▸ ha)
      have hmemP := mem_of_mem_enumFrom _ 0 ia hia
      refine ⟨c6 ia.2 hmemP, ?_⟩
      intro hmem
      rw [c4] at hmem
      rcases (mem_ensureDirectory_dirs fs trashDir _).mp hmem with heq | h2
      · exact (H6 ia.2 hmemP).2 heq
      · exact (H6 ia.2 hmemP).1 h2
    have g4 : (tx.actions.map (fun a => a.from_)).Nodup := by
      rw [htxActions, attachTrash_map_from]
      exact H3
    have g5 : (tx.actions.filterMap (fun a => a.to_)).Nodup := by
      rw [htxActions, attachTrash_filterMap_to]
      exact H5
    have g6 : ∀ a ∈ tx.actions, ∀ b ∈ tx.actions, ∀ t, b.to_ = some t → ¬ a.from_ = t := by
      intro a ha b hb t ht heq
      obtain ⟨ia, hia, rfl⟩ := (attachTrash_mem trashDir times _ 0 a).mp (htxActions ▸ ha)
      obtain ⟨ib, hib, rfl⟩ := (attachTrash_mem trashDir times _ 0 b).mp (htxActions ▸ hb)
      have ht2 : some (trashPathOf trashDir times ib.1 ib.2) = some t := ht
      injection ht2 with ht3
      subst ht3
      have heq2 : ia.2.from_ = trashPathOf trashDir times ib.1 ib.2 := heq
      have hexa : fileExists fs ia.2.from_ = true :=
        fileExists_of_lookup_isSome fs _ (H2 ia.2 (mem_of_mem_enumFrom _ 0 ia hia))
      rw [heq2, H4 ib hib] at hexa
      exact Bool.false_ne_true hexa
    have g7 : ∀ a ∈ tx.actions, ∀ b ∈ tx.actions, ¬ a.from_ = dirname b.from_ := by
      intro a ha b hb
      obtain ⟨ia, hia, rfl⟩ := (attachTrash_mem trashDir times _ 0 a).mp (htxActions ▸ ha)
      obtain ⟨ib, hib, rfl⟩ := (attachTrash_mem trashDir times _ 0 b).mp (htxActions ▸ hb)
      exact H8 ia.2 (mem_of_mem_enumFrom _ 0 ia hia) ib.2 (mem_of_mem_enumFrom _ 0 ib hib)
    have hfind : dbFind db1 txId = some tx := by
      rw [← hdb1, htx]
      exact dbFind_insert_fresh db tx txId hfresh htxId
    obtain ⟨rres, hb1, hb2, hb3, hb4, hb5, hb6⟩ :=
      rollback_restores_all fs1 db1 now2 rbId txId tx hfind hs htxDry hall g1 g2 g3 g4 g5 g6 g7
    refine ⟨rres, hb1, hb2, hb3, hb4, hb5, ?_⟩
    intro a ha
    refine ⟨hall a ha, ?_⟩
    obtain ⟨ia, hia, hae⟩ := (attachTrash_mem trashDir times _ 0 a).mp (htxActions ▸ ha)
    have h5 := c5 ia hia
    rw [fsLookup_ensureDirectory] at h5
    have hto : a.to_ = some (trashPathOf trashDir times ia.1 ia.2) := by rw [hae]
    have hfrom : a.from_ = ia.2.from_ := by rw [hae]
    obtain ⟨e1, e2⟩ := hb6 a ha (trashPathOf trashDir times ia.1 ia.2) hto
    refine ⟨trashPathOf trashDir times ia.1 ia.2, hto, ?_, ?_, e2⟩
    · rw [hfrom]
      exact H2 ia.2 (mem_of_mem_enumFrom _ 0 ia hia)
    · rw [e1, h5, hfrom]
  · intro fs1 db1 tx res hok
    simp only [dedupe, hdryB, htrB, Bool.false_eq_true, if_false, not_false_eq_true,
      true_and, Prod.mk.injEq] at hok
    obtain ⟨-, hdb1, htx, -⟩ := hok
    have htxId : tx.transactionId = txId := (congrArg Transaction.transactionId htx).symm
    have htxDry : tx.dryRun = false := (congrArg Transaction.dryRun htx).symm
    have hs : ¬ tx.status = TxStatus.rolled_back := by
      have h : tx.status =
          (if (if 0 < (dedupePlanFold trashDir false optB.strategy
                  (groupByHash files)).2.1.length
               then execDeleteActions trashDir times false fs 0
                 (dedupePlanFold trashDir false optB.strategy (groupByHash files)).2.1
               else (fs, (dedupePlanFold trashDir false optB.strategy
                 (groupByHash files)).2.1, 0, 0)).2.2.2 = 0
           then TxStatus.completed else TxStatus.partially_completed) :=
        (congrArg Transaction.status htx).symm
      rw [h]
      exact ite_status_ne_rolled_back _
    have hfieldsPlan : ∀ a ∈ (dedupePlanFold trashDir false optB.strategy
        (groupByHash files)).2.1, a.type = ActionType.delete ∧ a.to_ = none := by
      intro a ha
      obtain ⟨h1, h2⟩ := dedupePlanFold_actions_fields trashDir false optB.strategy
        (groupByHash files) a ha
      exact ⟨h1, by simpa using h2⟩
    have hfieldsAll : ∀ a ∈ tx.actions, a.type = ActionType.delete ∧ a.to_ = none := by
      have h : tx.actions =
          (if 0 < (dedupePlanFold trashDir false optB.strategy (groupByHash files)).2.1.length
           then execDeleteActions trashDir times false fs 0
             (dedupePlanFold trashDir false optB.strategy (groupByHash files)).2.1
           else (fs, (dedupePlanFold trashDir false optB.strategy
             (groupByHash files)).2.1, 0, 0)).2.1 :=
        (congrArg Transaction.actions htx).symm
      rw [h]
      by_cases hlen : 0 < (dedupePlanFold trashDir false optB.strategy
          (groupByHash files)).2.1.length
      · rw [if_pos hlen]
        exact execDeleteActions_no_trash_fields trashDir times
          (dedupePlanFold trashDir false optB.strategy (groupByHash files)).2.1 fs 0 hfieldsPlan
      · rw [if_neg hlen]
        exact hfieldsPlan
    have hfind : dbFind db1 txId = some tx := by
      rw [← hdb1, htx]
      exact dbFind_insert_fresh db tx txId hfresh htxId
    exact rollback_skips_all_none fs1 db1 now2 rbId txId tx hfind hs htxDry hfieldsAll

theorem dedupe_rollback_round_trip_witness :
    (∃ rres, (rollback (dedupe (⟨[(["r", "a.txt"], ⟨3, 0, 5, "h"⟩), (["r", "b.txt"], ⟨3, 0, 9, "h"⟩)], [["r"]]⟩ : Fs) [] ["trash"] (fun i => i + 100) 7 "t1" ["r"] ⟨false, DedupeStrategy.keepLatest, true⟩ [(["r", "a.txt"], ⟨3, 0, 5, "h"⟩), (["r", "b.txt"], ⟨3, 0, 9, "h"⟩)]).1 (dedupe (⟨[(["r", "a.txt"], ⟨3, 0, 5, "h"⟩), (["r", "b.txt"], ⟨3, 0, 9, "h"⟩)], [["r"]]⟩ : Fs) [] ["trash"] (fun i => i + 100) 7 "t1" ["r"] ⟨false, DedupeStrategy.keepLatest, true⟩ [(["r", "a.txt"], ⟨3, 0, 5, "h"⟩), (["r", "b.txt"], ⟨3, 0, 9, "h"⟩)]).2.1 8 "rb1" "t1").2.2 = Except.ok rres ∧
      rres.summary.totalActions = (dedupe (⟨[(["r", "a.txt"], ⟨3, 0, 5, "h"⟩), (["r", "b.txt"], ⟨3, 0, 9, "h"⟩)], [["r"]]⟩ : Fs) [] ["trash"] (fun i => i + 100) 7 "t1" ["r"] ⟨false, DedupeStrategy.keepLatest, true⟩ [(["r", "a.txt"], ⟨3, 0, 5, "h"⟩), (["r", "b.txt"], ⟨3, 0, 9, "h"⟩)]).2.2.1.actions.length ∧
      rres.summary.restoredCount = (dedupe (⟨[(["r", "a.txt"], ⟨3, 0, 5, "h"⟩), (["r", "b.txt"], ⟨3, 0, 9, "h"⟩)], [["r"]]⟩ : Fs) [] ["trash"] (fun i => i + 100) 7 "t1" ["r"] ⟨false, DedupeStrategy.keepLatest, true⟩ [(["r", "a.txt"], ⟨3, 0, 5, "h"⟩), (["r", "b.txt"], ⟨3, 0, 9, "h"⟩)]).2.2.1.actions.length ∧
      rres.summary.failedCount = 0 ∧
      rres.summary.skippedCount = 0 ∧
      ∀ a ∈ (dedupe (⟨[(["r", "a.txt"], ⟨3, 0, 5, "h"⟩), (["r", "b.txt"], ⟨3, 0, 9, "h"⟩)], [["r"]]⟩ : Fs) [] ["trash"] (fun i => i + 100) 7 "t1" ["r"] ⟨false, DedupeStrategy.keepLatest, true⟩ [(["r", "a.txt"], ⟨3, 0, 5, "h"⟩), (["r", "b.txt"], ⟨3, 0, 9, "h"⟩)]).2.2.1.actions, a.status = ActionStatus.completed ∧
        ∃ t, a.to_ = some t ∧
          (fsLookup (⟨[(["r", "a.txt"], ⟨3, 0, 5, "h"⟩), (["r", "b.txt"], ⟨3, 0, 9, "h"⟩)], [["r"]]⟩ : Fs) a.from_).isSome = true ∧
          fsLookup (rollback (dedupe (⟨[(["r", "a.txt"], ⟨3, 0, 5, "h"⟩), (["r", "b.txt"], ⟨3, 0, 9, "h"⟩)], [["r"]]⟩ : Fs) [] ["trash"] (fun i => i + 100) 7 "t1" ["r"] ⟨false, DedupeStrategy.keepLatest, true⟩ [(["r", "a.txt"], ⟨3, 0, 5, "h"⟩), (["r", "b.txt"], ⟨3, 0, 9, "h"⟩)]).1 (dedupe (⟨[(["r", "a.txt"], ⟨3, 0, 5, "h"⟩), (["r", "b.txt"], ⟨3, 0, 9, "h"⟩)], [["r"]]⟩ : Fs) [] ["trash"] (fun i => i + 100) 7 "t1" ["r"] ⟨false, DedupeStrategy.keepLatest, true⟩ [(["r", "a.txt"], ⟨3, 0, 5, "h"⟩), (["r", "b.txt"], ⟨3, 0, 9, "h"⟩)]).2.1 8 "rb1" "t1").1 a.from_ = fsLookup (⟨[(["r", "a.txt"], ⟨3, 0, 5, "h"⟩), (["r", "b.txt"], ⟨3, 0, 9, "h"⟩)], [["r"]]⟩ : Fs) a.from_ ∧
          fsLookup (rollback (dedupe (⟨[(["r", "a.txt"], ⟨3, 0, 5, "h"⟩), (["r", "b.txt"], ⟨3, 0, 9, "h"⟩)], [["r"]]⟩ : Fs) [] ["trash"] (fun i => i + 100) 7 "t1" ["r"] ⟨false, DedupeStrategy.keepLatest, true⟩ [(["r", "a.txt"], ⟨3, 0, 5, "h"⟩), (["r", "b.txt"], ⟨3, 0, 9, "h"⟩)]).1 (dedupe (⟨[(["r", "a.txt"], ⟨3, 0, 5, "h"⟩), (["r", "b.txt"], ⟨3, 0, 9, "h"⟩)], [["r"]]⟩ : Fs) [] ["trash"] (fun i => i + 100) 7 "t1" ["r"] ⟨false, DedupeStrategy.keepLatest, true⟩ [(["r", "a.txt"], ⟨3, 0, 5, "h"⟩), (["r", "b.txt"], ⟨3, 0, 9, "h"⟩)]).2.1 8 "rb1" "t1").1 t = none) ∧
    (∃ rres, (rollback (dedupe (⟨[(["r", "a.txt"], ⟨3, 0, 5, "h"⟩), (["r", "b.txt"], ⟨3, 0, 9, "h"⟩)], [["r"]]⟩ : Fs) [] ["trash"] (fun i => i + 100) 7 "t1" ["r"] ⟨false, DedupeStrategy.keepLatest, false⟩ [(["r", "a.txt"], ⟨3, 0, 5, "h"⟩), (["r", "b.txt"], ⟨3, 0, 9, "h"⟩)]).1 (dedupe (⟨[(["r", "a.txt"], ⟨3, 0, 5, "h"⟩), (["r", "b.txt"], ⟨3, 0, 9, "h"⟩)], [["r"]]⟩ : Fs) [] ["trash"] (fun i => i + 100) 7 "t1" ["r"] ⟨false, DedupeStrategy.keepLatest, false⟩ [(["r", "a.txt"], ⟨3, 0, 5, "h"⟩), (["r", "b.txt"], ⟨3, 0, 9, "h"⟩)]).2.1 8 "rb1" "t1").2.2 = Except.ok rres ∧
      (rollback (dedupe (⟨[(["r", "a.txt"], ⟨3, 0, 5, "h"⟩), (["r", "b.txt"], ⟨3, 0, 9, "h"⟩)], [["r"]]⟩ : Fs) [] ["trash"] (fun i => i + 100) 7 "t1" ["r"] ⟨false, DedupeStrategy.keepLatest, false⟩ [(["r", "a.txt"], ⟨3, 0, 5, "h"⟩), (["r", "b.txt"], ⟨3, 0, 9, "h"⟩)]).1 (dedupe (⟨[(["r", "a.txt"], ⟨3, 0, 5, "h"⟩), (["r", "b.txt"], ⟨3, 0, 9, "h"⟩)], [["r"]]⟩ : Fs) [] ["trash"] (fun i => i + 100) 7 "t1" ["r"] ⟨false, DedupeStrategy.keepLatest, false⟩ [(["r", "a.txt"], ⟨3, 0, 5, "h"⟩), (["r", "b.txt"], ⟨3, 0, 9, "h"⟩)]).2.1 8 "rb1" "t1").1 = (dedupe (⟨[(["r", "a.txt"], ⟨3, 0, 5, "h"⟩), (["r", "b.txt"], ⟨3, 0, 9, "h"⟩)], [["r"]]⟩ : Fs) [] ["trash"] (fun i => i + 100) 7 "t1" ["r"] ⟨false, DedupeStrategy.keepLatest, false⟩ [(["r", "a.txt"], ⟨3, 0, 5, "h"⟩), (["r", "b.txt"], ⟨3, 0, 9, "h"⟩)]).1 ∧
      rres.summary.restoredCount = 0 ∧
      rres.summary.skippedCount = rres.summary.totalActions ∧
      ∀ d ∈ rres.details, d.status = RbOutcome.skipped) :=
  ⟨(dedupe_rollback_round_trip (⟨[(["r", "a.txt"], ⟨3, 0, 5, "h"⟩), (["r", "b.txt"], ⟨3, 0, 9, "h"⟩)], [["r"]]⟩ : Fs) [] ["trash"] (fun i => i + 100) 7 8 "t1" "rb1" ["r"] ⟨false, DedupeStrategy.keepLatest, true⟩ ⟨false, DedupeStrategy.keepLatest, false⟩ [(["r", "a.txt"], ⟨3, 0, 5, "h"⟩), (["r", "b.txt"], ⟨3, 0, 9, "h"⟩)] rfl rfl rfl rfl rfl).1
      (by decide) (by decide) (by decide) (by decide) (by decide) (by decide) (by decide)
      (dedupe (⟨[(["r", "a.txt"], ⟨3, 0, 5, "h"⟩), (["r", "b.txt"], ⟨3, 0, 9, "h"⟩)], [["r"]]⟩ : Fs) [] ["trash"] (fun i => i + 100) 7 "t1" ["r"] ⟨false, DedupeStrategy.keepLatest, true⟩ [(["r", "a.txt"], ⟨3, 0, 5, "h"⟩), (["r", "b.txt"], ⟨3, 0, 9, "h"⟩)]).1 (dedupe (⟨[(["r", "a.txt"], ⟨3, 0, 5, "h"⟩), (["r", "b.txt"], ⟨3, 0, 9, "h"⟩)], [["r"]]⟩ : Fs) [] ["trash"] (fun i => i + 100) 7 "t1" ["r"] ⟨false, DedupeStrategy.keepLatest, true⟩ [(["r", "a.txt"], ⟨3, 0, 5, "h"⟩), (["r", "b.txt"], ⟨3, 0, 9, "h"⟩)]).2.1 (dedupe (⟨[(["r", "a.txt"], ⟨3, 0, 5, "h"⟩), (["r", "b.txt"], ⟨3, 0, 9, "h"⟩)], [["r"]]⟩ : Fs) [] ["trash"] (fun i => i + 100) 7 "t1" ["r"] ⟨false, DedupeStrategy.keepLatest, true⟩ [(["r", "a.txt"], ⟨3, 0, 5, "h"⟩), (["r", "b.txt"], ⟨3, 0, 9, "h"⟩)]).2.2.1 (dedupe (⟨[(["r", "a.txt"], ⟨3, 0, 5, "h"⟩), (["r", "b.txt"], ⟨3, 0, 9, "h"⟩)], [["r"]]⟩ : Fs) [] ["trash"] (fun i => i + 100) 7 "t1" ["r"] ⟨false, DedupeStrategy.keepLatest, true⟩ [(["r", "a.txt"], ⟨3, 0, 5, "h"⟩), (["r", "b.txt"], ⟨3, 0, 9, "h"⟩)]).2.2.2 rfl,
   (dedupe_rollback_round_trip (⟨[(["r", "a.txt"], ⟨3, 0, 5, "h"⟩), (["r", "b.txt"], ⟨3, 0, 9, "h"⟩)], [["r"]]⟩ : Fs) [] ["trash"] (fun i => i + 100) 7 8 "t1" "rb1" ["r"] ⟨false, DedupeStrategy.keepLatest, true⟩ ⟨false, DedupeStrategy.keepLatest, false⟩ [(["r", "a.txt"], ⟨3, 0, 5, "h"⟩), (["r", "b.txt"], ⟨3, 0, 9, "h"⟩)] rfl rfl rfl rfl rfl).2
      (dedupe (⟨[(["r", "a.txt"], ⟨3, 0, 5, "h"⟩), (["r", "b.txt"], ⟨3, 0, 9, "h"⟩)], [["r"]]⟩ : Fs) [] ["trash"] (fun i => i + 100) 7 "t1" ["r"] ⟨false, DedupeStrategy.keepLatest, false⟩ [(["r", "a.txt"], ⟨3, 0, 5, "h"⟩), (["r", "b.txt"], ⟨3, 0, 9, "h"⟩)]).1 (dedupe (⟨[(["r", "a.txt"], ⟨3, 0, 5, "h"⟩), (["r", "b.txt"], ⟨3, 0, 9, "h"⟩)], [["r"]]⟩ : Fs) [] ["trash"] (fun i => i + 100) 7 "t1" ["r"] ⟨false, DedupeStrategy.keepLatest, false⟩ [(["r", "a.txt"], ⟨3, 0, 5, "h"⟩), (["r", "b.txt"], ⟨3, 0, 9, "h"⟩)]).2.1 (dedupe (⟨[(["r", "a.txt"], ⟨3, 0, 5, "h"⟩), (["r", "b.txt"], ⟨3, 0, 9, "h"⟩)], [["r"]]⟩ : Fs) [] ["trash"] (fun i => i + 100) 7 "t1" ["r"] ⟨false, DedupeStrategy.keepLatest, false⟩ [(["r", "a.txt"], ⟨3, 0, 5, "h"⟩), (["r", "b.txt"], ⟨3, 0, 9, "h"⟩)]).2.2.1 (dedupe (⟨[(["r", "a.txt"], ⟨3, 0, 5, "h"⟩), (["r", "b.txt"], ⟨3, 0, 9, "h"⟩)], [["r"]]⟩ : Fs) [] ["trash"] (fun i => i + 100) 7 "t1" ["r"] ⟨false, DedupeStrategy.keepLatest, false⟩ [(["r", "a.txt"], ⟨3, 0, 5, "h"⟩), (["r", "b.txt"], ⟨3, 0, 9, "h"⟩)]).2.2.2 rfl⟩

end DeskPilot
